import Mathlib

/-!
LCDGame: a verification development of `src/main.c`.

Shallow embedding of the simulation and presentation core of the LCD panel
program: the colour table (`BuildColorInterpTable`), the panel update
(`LCDUpdate`), the composition of the framebuffer
(`UpdateDisplayFramebuffer`) and the placement arithmetic of
`DrawFramebuffer`.

Modelling conventions.

* C `double` and `float` are IEEE 754 binary64 and binary32. A finite value is
  modelled by the rational number it denotes, and every arithmetic operation
  of the source (`+`, `-`, `*`, `/`, the conversion of an `int`) is the exact
  operation followed by rounding to the nearest representable value, ties to
  even (`roundDouble`, `roundSingle`). Expressions are evaluated in the
  precision of their type, without fused multiply-add. Comparisons, `fmax`,
  `floorf` and the conversion to an integer type are exact.
* `uint8_t` and `uint32_t` values are natural numbers; the masks `& 0xff` of
  the source are kept, so that only the low byte of a value is ever read.
* `int` and `int32_t` values are integers `Int`; the model agrees with the C
  program whenever the C arithmetic does not overflow.
* A store outside `g_LCDPanel` is undefined behaviour in C; the model of
  `LCDUpdate` returns `none` there.
-/

namespace LCDGame

/-! ## Constants -/

/-- The macro `SCREEN_WIDTH` (main.c line 3). -/
def SCREEN_WIDTH : Nat := 60

/-- The macro `SCREEN_HEIGHT` (main.c line 4). -/
def SCREEN_HEIGHT : Nat := 40

/-- The macro `LOCOLOR`, an ARGB colour (main.c line 38). -/
def LOCOLOR : Nat := 0xff405010

/-- The macro `HICOLOR`, an ARGB colour (main.c line 39). -/
def HICOLOR : Nat := 0xffd0d058

/-- The macro `LCD_DECAY_RATE` (main.c line 93). -/
def LCD_DECAY_RATE : Nat := 10

/-- The constant `g_LCDPanelSize`: the number of elements of
`g_LCDPanel[SCREEN_WIDTH * SCREEN_HEIGHT]` (main.c lines 88-89). -/
def g_LCDPanelSize : Nat := SCREEN_WIDTH * SCREEN_HEIGHT

/-! ## Floating-point arithmetic

The C types `double` and `float` are IEEE 754 binary64 and binary32. A finite
floating-point value is modelled by the rational number it denotes, and every
arithmetic operation of the source is the exact operation followed by rounding
to the nearest representable value, ties to even. -/

/-- One step of the binary search for the position of the leading bit. -/
def lgStep (k : Nat) (p : Nat × Nat) : Nat × Nat :=
  if p.1 < 2 ^ k then p else (p.1 >>> k, p.2 + k)

/-- The position of the leading bit of `n`, that is `Nat.log2 n`, found by
binary search for numbers below `2 ^ 256`. -/
def natLog2 (n : Nat) : Nat :=
  if n < 2 ^ 256 then
    (lgStep 1 (lgStep 2 (lgStep 4 (lgStep 8 (lgStep 16 (lgStep 32 (lgStep 64
      (lgStep 128 (n, 0))))))))).2
  else Nat.log2 n

/-- The integer `e` with `2 ^ e <= n / d < 2 ^ (e + 1)`, for positive `n` and
`d`. -/
def ratLog2 (n d : Nat) : Int :=
  let c : Int := (natLog2 n : Int) - (natLog2 d : Int)
  if (if 0 ≤ c then d <<< c.toNat ≤ n else d ≤ n <<< (-c).toNat) then c else c - 1

/-- The fraction `n / d` rounded to the nearest natural number, a tie going to
the even neighbour. -/
def roundMantissa (n d : Nat) : Nat :=
  let m := n / d
  let r := n % d
  if 2 * r < d then m else if d < 2 * r then m + 1 else if m % 2 = 0 then m else m + 1

/-- The exponent of the unit in the last place of the floating-point format
with `prec` significant bits and least exponent `emin` at the non-zero
rational `q`. -/
def floatExponent (prec : Nat) (emin : Int) (q : ℚ) : Int :=
  max (ratLog2 q.num.natAbs q.den - ((prec : Int) - 1)) emin

/-- The rational `q` rounded to the nearest value `m * 2 ^ e` of the
floating-point format with `prec` significant bits and least exponent `emin`
(subnormal numbers included), ties to even. Overflow to infinity is not
modelled: the values of the program stay far below the largest finite
number. -/
def roundFloat (prec : Nat) (emin : Int) (q : ℚ) : ℚ :=
  if q.num.natAbs = 0 then 0 else
    let e : Int := floatExponent prec emin q
    let mant : Nat :=
      if 0 ≤ e then roundMantissa q.num.natAbs (q.den <<< e.toNat)
      else roundMantissa (q.num.natAbs <<< (-e).toNat) q.den
    let mag : ℚ :=
      if 0 ≤ e then ((mant <<< e.toNat : Nat) : ℚ) else mkRat mant (1 <<< (-e).toNat)
    if q.num < 0 then -mag else mag

/-- Rounding to `double` (IEEE 754 binary64: 53 significant bits, least
exponent -1074). -/
def roundDouble (q : ℚ) : ℚ := roundFloat 53 (-1074) q

/-- Rounding to `float` (IEEE 754 binary32: 24 significant bits, least
exponent -149). -/
def roundSingle (q : ℚ) : ℚ := roundFloat 24 (-149) q

/-! ## Colour arithmetic (main.c lines 44-84) -/

/-- The SDL2 macro `SDL_clamp(x, a, b)`, which expands to
`((x) < (a)) ? (a) : (((x) > (b)) ? (b) : (x))`. -/
def SDL_clamp {α : Type} [LT α] [DecidableRel (fun (p q : α) => p < q)] (x a b : α) : α :=
  if x < a then a else if b < x then b else x

/-- The SDL2 macro `SDL_min(x, y)`, which expands to `((x) < (y)) ? (x) : (y)`. -/
def SDL_min {α : Type} [LT α] [DecidableRel (fun (p q : α) => p < q)] (x y : α) : α :=
  if x < y then x else y

/-- The C library function `fmax` on (finite) doubles; it is exact. -/
def fmax (x y : ℚ) : ℚ := if x < y then y else x

/-- The macro `Uint8ToDouble(v)`: `(double)((v) & 0xff) / 255.0`. The
conversion of the byte is exact and the quotient is rounded. -/
def Uint8ToDouble (v : Nat) : ℚ := roundDouble (((v &&& 0xff : Nat) : ℚ) / 255)

/-- The macro `DoubleToUint8(v)`: `(uint8_t)(255.0 * SDL_clamp(v, 0.0, 1.0))`.
The product is rounded; the conversion of a double to `uint8_t` discards the
fractional part, and the operand lies in `[0, 255]`, where discarding the
fraction is the floor. -/
def DoubleToUint8 (v : ℚ) : Nat := (⌊roundDouble (255 * SDL_clamp v 0 1)⌋).toNat % 256

/-- The macro `Lerp(a, b, f)`: `a * (1.0 - f) + (b * f)`, each of the four
operations rounded. -/
def Lerp (a b f : ℚ) : ℚ :=
  roundDouble (roundDouble (a * roundDouble (1 - f)) + roundDouble (b * f))

/-- The C library call `pow(x, 2.0)`: the square of `x`, correctly rounded. -/
def powSquare (x : ℚ) : ℚ := roundDouble (x * x)

/-- The four `double` channels `c[0..3]` (red, green, blue, alpha) that the
colour functions pass around. -/
structure Color4 where
  c0 : ℚ
  c1 : ℚ
  c2 : ℚ
  c3 : ℚ
  deriving DecidableEq

/-- The function `FillColor32(c, v)` (main.c lines 48-53). -/
def FillColor32 (v : Nat) : Color4 :=
  { c0 := Uint8ToDouble ((v >>> 16) &&& 0xff)
    c1 := Uint8ToDouble ((v >>> 8) &&& 0xff)
    c2 := Uint8ToDouble (v &&& 0xff)
    c3 := Uint8ToDouble ((v >>> 24) &&& 0xff) }

/-- The function `PackColor32(c)` (main.c lines 55-62); the sum is a
`uint32_t`. -/
def PackColor32 (c : Color4) : Nat :=
  let r := DoubleToUint8 c.c0
  let g := DoubleToUint8 c.c1
  let b := DoubleToUint8 c.c2
  let a := DoubleToUint8 c.c3
  (b + (g <<< 8) + (r <<< 16) + (a <<< 24)) % 2 ^ 32

/-- The function `ARGBLerp(a, b, v)` (main.c lines 64-77); the loop over the
four channels is unrolled. -/
def ARGBLerp (a b : Nat) (v : ℚ) : Nat :=
  let af := FillColor32 a
  let bf := FillColor32 b
  PackColor32
    { c0 := Lerp af.c0 bf.c0 v
      c1 := Lerp af.c1 bf.c1 v
      c2 := Lerp af.c2 bf.c2 v
      c3 := Lerp af.c3 bf.c3 v }

/-- The value stored in `g_ColorInterpTable[i]` by the body of the loop of
`BuildColorInterpTable` (main.c lines 81-82): the factor is
`1 - pow((double)i / 255.0, 2.0)`, the quotient, the square and the difference
each rounded. -/
def ColorInterpEntry (i : Nat) : Nat :=
  let v : ℚ := roundDouble (1 - powSquare (roundDouble ((i : ℚ) / 255)))
  ARGBLerp LOCOLOR HICOLOR v

/-- The function `BuildColorInterpTable` (main.c lines 79-84): the contents of
`g_ColorInterpTable` after the loop over `i = 0 .. 255`. -/
def BuildColorInterpTable : List Nat := (List.range 256).map ColorInterpEntry

/-- The red channel of a packed ARGB colour, as `UpdateDisplayFramebuffer`
reads it: `(v >> 16) & 0xff`. -/
def redOf (v : Nat) : Nat := (v >>> 16) &&& 0xff

/-- The green channel of a packed ARGB colour: `(v >> 8) & 0xff`. -/
def greenOf (v : Nat) : Nat := (v >>> 8) &&& 0xff

/-- The blue channel of a packed ARGB colour: `v & 0xff`. -/
def blueOf (v : Nat) : Nat := v &&& 0xff

/-- The alpha channel of a packed ARGB colour: `(v >> 24) & 0xff`. -/
def alphaOf (v : Nat) : Nat := (v >>> 24) &&& 0xff

/-- Two packed ARGB colours differ by at most `d` in each of the four
channels. -/
def ChannelsWithin (d u v : Nat) : Prop :=
  (redOf u ≤ redOf v + d ∧ redOf v ≤ redOf u + d) ∧
  (greenOf u ≤ greenOf v + d ∧ greenOf v ≤ greenOf u + d) ∧
  (blueOf u ≤ blueOf v + d ∧ blueOf v ≤ blueOf u + d) ∧
  (alphaOf u ≤ alphaOf v + d ∧ alphaOf v ≤ alphaOf u + d)

instance (d u v : Nat) : Decidable (ChannelsWithin d u v) := by
  unfold ChannelsWithin; infer_instance

/-! ## The LCD panel (main.c lines 88-93 and 192-212) -/

/-- The type `ivec2` of `lcd.h`; the `int32_t` fields are integers. -/
structure ivec2 where
  x : Int
  y : Int
  deriving DecidableEq

/-- The array `g_KeyboardState`, indexed by scancode. -/
abbrev KeyboardState := Nat → Bool

/-- The SDL2 scancode `SDL_SCANCODE_RIGHT`. -/
def SDL_SCANCODE_RIGHT : Nat := 79

/-- The SDL2 scancode `SDL_SCANCODE_LEFT`. -/
def SDL_SCANCODE_LEFT : Nat := 80

/-- The SDL2 scancode `SDL_SCANCODE_DOWN`. -/
def SDL_SCANCODE_DOWN : Nat := 81

/-- The SDL2 scancode `SDL_SCANCODE_UP`. -/
def SDL_SCANCODE_UP : Nat := 82

/-- The function `IsKeyDown(scancode)` (main.c lines 19-21), with the global
`g_KeyboardState` passed explicitly. -/
def IsKeyDown (g_KeyboardState : KeyboardState) (scancode : Nat) : Bool :=
  g_KeyboardState scancode

/-- The macro `GetLCDOffset(x, y)`: `(size_t)(((y) * SCREEN_WIDTH) + (x))`, the
conversion to the 64-bit `size_t` being reduction modulo `2 ^ 64`. -/
def GetLCDOffset (x y : Int) : Nat :=
  ((y * (SCREEN_WIDTH : Int) + x) % 2 ^ 64).toNat

/-- The simulation state: the globals `g_LCDPanel` and `g_PixelPos`. -/
structure LCDState where
  g_LCDPanel : List Nat
  g_PixelPos : ivec2
  deriving DecidableEq

/-- The body of the ghosting loop of `LCDUpdate` for one cell (main.c lines
195-196), the double `g_DeltaTime` being passed explicitly: the product
`LCD_DECAY_RATE * g_DeltaTime` and the difference are each rounded. -/
def LCDDecayCell (g_DeltaTime : ℚ) (cell : Nat) : Nat :=
  let v : ℚ := fmax 0
    (roundDouble (Uint8ToDouble cell - roundDouble ((LCD_DECAY_RATE : ℚ) * g_DeltaTime)))
  DoubleToUint8 v

/-- The ghosting loop of `LCDUpdate` (main.c lines 194-197): every cell of the
panel is replaced by its decayed value. -/
def LCDDecay (g_DeltaTime : ℚ) (panel : List Nat) : List Nat :=
  panel.map (LCDDecayCell g_DeltaTime)

/-- The pen movement of `LCDUpdate` (main.c lines 200-208). -/
def LCDMovePen (g_KeyboardState : KeyboardState) (pos : ivec2) : ivec2 :=
  let xDir : Int := 0
  let yDir : Int := 0
  let yDir := if IsKeyDown g_KeyboardState SDL_SCANCODE_DOWN then yDir + 1 else yDir
  let yDir := if IsKeyDown g_KeyboardState SDL_SCANCODE_UP then yDir - 1 else yDir
  let xDir := if IsKeyDown g_KeyboardState SDL_SCANCODE_RIGHT then xDir + 1 else xDir
  let xDir := if IsKeyDown g_KeyboardState SDL_SCANCODE_LEFT then xDir - 1 else xDir
  { x := SDL_clamp (pos.x + xDir) 0 (SCREEN_WIDTH : Int)
    y := SDL_clamp (pos.y + yDir) 0 (SCREEN_HEIGHT : Int) }

/-- The index that the plot statement of `LCDUpdate` (main.c line 211) writes:
`GetLCDOffset(g_PixelPos.x, g_PixelPos.y)` at the moved pen. -/
def LCDPlotOffset (g_KeyboardState : KeyboardState) (pos : ivec2) : Nat :=
  let p := LCDMovePen g_KeyboardState pos
  GetLCDOffset p.x p.y

/-- The function `LCDUpdate` (main.c lines 192-212), with the globals it reads
passed explicitly. The store `g_LCDPanel[...] = 255` is defined only for an
index below `g_LCDPanelSize`; otherwise the result is `none`. -/
def LCDUpdate (g_DeltaTime : ℚ) (g_KeyboardState : KeyboardState) (s : LCDState) :
    Option LCDState :=
  let panel := LCDDecay g_DeltaTime s.g_LCDPanel
  let pos := LCDMovePen g_KeyboardState s.g_PixelPos
  let off := GetLCDOffset pos.x pos.y
  if off < g_LCDPanelSize then
    some { g_LCDPanel := panel.set off 255, g_PixelPos := pos }
  else
    none

/-- The initial value of `g_PixelPos` (main.c line 15). -/
def initialPixelPos : ivec2 :=
  { x := ((SCREEN_WIDTH / 2 : Nat) : Int), y := ((SCREEN_HEIGHT / 2 : Nat) : Int) }

/-- A well-formed panel: `g_LCDPanelSize` cells, each a `uint8_t`. -/
def PanelWF (panel : List Nat) : Prop :=
  panel.length = g_LCDPanelSize ∧ ∀ v ∈ panel, v < 256

/-- The states reachable from an initial state (pen at the grid centre, any
well-formed panel) by calls of `LCDUpdate` with a non-negative elapsed time
and any keyboard snapshot. -/
inductive Reachable : LCDState → Prop
  | init (panel : List Nat) (h : PanelWF panel) :
      Reachable { g_LCDPanel := panel, g_PixelPos := initialPixelPos }
  | step (s s' : LCDState) (dt : ℚ) (ks : KeyboardState) (hs : Reachable s)
      (hdt : 0 ≤ dt) (hstep : LCDUpdate dt ks s = some s') : Reachable s'

/-- A keyboard snapshot in which exactly the listed scancodes are held. -/
def keysHeld (held : List Nat) : KeyboardState := fun scancode => decide (scancode ∈ held)

/-- The state whose panel is dark except for the cell of the pen at `(x, y)`. -/
def litState (x y : Int) : LCDState :=
  { g_LCDPanel := (List.replicate g_LCDPanelSize 0).set (GetLCDOffset x y) 255
    g_PixelPos := { x := x, y := y } }

/-! ## Placement of the framebuffer (main.c lines 230-252) -/

/-- The SDL2 type `SDL_Rect`. -/
structure SDL_Rect where
  x : Int
  y : Int
  w : Int
  h : Int
  deriving DecidableEq

/-- The values `DrawFramebuffer` computes: the scale and the destination
rectangle `dst`. -/
structure Placement where
  scale : Int
  dst : SDL_Rect
  deriving DecidableEq

/-- The arithmetic of `DrawFramebuffer` (main.c lines 234-252), the output
size `windowWidth`, `windowHeight` that `SDL_GetRendererOutputSize` reports
being passed explicitly. The conversions `(float)windowWidth`,
`(float)windowHeight` and the two `float` quotients are rounded to binary32,
`floorf` is the floor, and the C division `/ 2` of integers rounds toward
zero. -/
def DrawFramebuffer (windowWidth windowHeight : Int) : Placement :=
  let scale : Int := ⌊SDL_min
    (roundSingle (roundSingle (windowWidth : ℚ) / (SCREEN_WIDTH : ℚ)))
    (roundSingle (roundSingle (windowHeight : ℚ) / (SCREEN_HEIGHT : ℚ)))⌋
  let scale := if scale < 1 then 1 else scale
  let scaledWidth : Int := (SCREEN_WIDTH : Int) * scale
  let scaledHeight : Int := (SCREEN_HEIGHT : Int) * scale
  let wDiff : Int := windowWidth - scaledWidth
  let hDiff : Int := windowHeight - scaledHeight
  { scale := scale
    dst := { x := Int.tdiv wDiff 2, y := Int.tdiv hDiff 2, w := scaledWidth, h := scaledHeight } }

/-! ## Composition of the framebuffer (main.c lines 214-228) -/

/-- The memory that `UpdateDisplayFramebuffer` leaves behind: the global
`g_LCDPanel` and the pixels `pixelData` of the locked texture. -/
structure FrameState where
  g_LCDPanel : List Nat
  pixelData : List Nat
  deriving DecidableEq

/-- The body of the loop of `UpdateDisplayFramebuffer` for one pixel (main.c
lines 221-224). The parameter `SDL_MapRGBA` stands for the SDL2 call
`SDL_MapRGBA(g_FramebufferPixelFormatter, r, g, b, a)`, the encoder of the
destination pixel format; `lcdValue` is a `uint8_t`. For a panel of
`g_LCDPanelSize` cells and a table of 256 entries both reads are inside their
arrays. -/
def ComposePixel (SDL_MapRGBA : Nat → Nat → Nat → Nat → Nat) (g_ColorInterpTable : List Nat)
    (g_LCDPanel : List Nat) (pixel : Nat) : Nat :=
  let lcdValue : Nat := g_LCDPanel.getD pixel 0 % 256
  let argbValue : Nat := g_ColorInterpTable.getD lcdValue 0
  SDL_MapRGBA ((argbValue >>> 16) &&& 0xff) ((argbValue >>> 8) &&& 0xff) (argbValue &&& 0xff)
    ((argbValue >>> 24) &&& 0xff)

/-- The function `UpdateDisplayFramebuffer` (main.c lines 214-228), with the
globals it reads passed explicitly: the loop over `pixel = 0 ..
g_LCDPanelSize - 1` writes `pixelData[pixel]`, and `g_LCDPanel` is only read. -/
def UpdateDisplayFramebuffer (SDL_MapRGBA : Nat → Nat → Nat → Nat → Nat)
    (g_ColorInterpTable : List Nat) (g_LCDPanel : List Nat) : FrameState :=
  { g_LCDPanel := g_LCDPanel
    pixelData := (List.range g_LCDPanelSize).map
      (ComposePixel SDL_MapRGBA g_ColorInterpTable g_LCDPanel) }

/-- The encoding of a packed ARGB colour in the destination format: the
encoder applied to its red, green, blue and alpha channels. -/
def encodeColor (SDL_MapRGBA : Nat → Nat → Nat → Nat → Nat) (argb : Nat) : Nat :=
  SDL_MapRGBA (redOf argb) (greenOf argb) (blueOf argb) (alphaOf argb)

/-- The encoder of the SDL2 pixel format `SDL_PIXELFORMAT_ARGB8888`: alpha in
bits 24-31, red in bits 16-23, green in bits 8-15, blue in bits 0-7. -/
def MapRGBA_ARGB8888 (r g b a : Nat) : Nat :=
  (a <<< 24) ||| (r <<< 16) ||| (g <<< 8) ||| b

/-- The channel formula of the colour table in exact arithmetic: the floor of
`(lo * i ^ 2 + hi * (65025 - i ^ 2)) / 65025`, the interpolation from the
channel `lo` (factor 0) to the channel `hi` (factor 1) at `1 - (i / 255) ^ 2`. -/
def tableChannel (lo hi i : Nat) : Nat :=
  (lo * i ^ 2 + hi * (65025 - i ^ 2)) / 65025

/-- The colour that is packed from the four channel formulas at index `i`, as
`PackColor32` packs it. -/
def tableFormula (i : Nat) : Nat :=
  (tableChannel (blueOf LOCOLOR) (blueOf HICOLOR) i
    + (tableChannel (greenOf LOCOLOR) (greenOf HICOLOR) i <<< 8)
    + (tableChannel (redOf LOCOLOR) (redOf HICOLOR) i <<< 16)
    + (tableChannel (alphaOf LOCOLOR) (alphaOf HICOLOR) i <<< 24)) % 2 ^ 32

/-- The entries of the colour table as the double arithmetic yields them: the
colour of the channel formulas, except at index 85, where the red channel is
191 and not 192. -/
def tableExpected (i : Nat) : Nat :=
  if i = 85 then 0xffbfc150 else tableFormula i


/-! ## Floating-point arithmetic: properties of the rounding -/

/-- The invariant of the binary search: the leading part `p.1` is positive and
`p.1 * 2 ^ p.2 <= n < (p.1 + 1) * 2 ^ p.2`. -/
theorem lgStep_inv (n k : Nat) (p : Nat × Nat)
    (h : 1 ≤ p.1 ∧ p.1 * 2 ^ p.2 ≤ n ∧ n < (p.1 + 1) * 2 ^ p.2) :
    1 ≤ (lgStep k p).1 ∧ (lgStep k p).1 * 2 ^ (lgStep k p).2 ≤ n ∧
      n < ((lgStep k p).1 + 1) * 2 ^ (lgStep k p).2 := by
  unfold lgStep
  split_ifs with hlt
  · exact h
  · obtain ⟨h1, h2, h3⟩ := h
    have hk : 0 < 2 ^ k := Nat.two_pow_pos k
    have hge : 2 ^ k ≤ p.1 := Nat.not_lt.mp hlt
    simp only [Nat.shiftRight_eq_div_pow]
    have hdm := Nat.div_add_mod p.1 (2 ^ k)
    have hmod := Nat.mod_lt p.1 hk
    have hpow : 2 ^ (p.2 + k) = 2 ^ k * 2 ^ p.2 := by rw [Nat.pow_add, Nat.mul_comm]
    refine ⟨Nat.div_pos hge hk, ?_, ?_⟩
    · rw [hpow, ← Nat.mul_assoc]
      have : p.1 / 2 ^ k * 2 ^ k ≤ p.1 := Nat.div_mul_le_self _ _
      exact le_trans (Nat.mul_le_mul_right _ this) h2
    · rw [hpow, ← Nat.mul_assoc]
      have : p.1 + 1 ≤ (p.1 / 2 ^ k + 1) * 2 ^ k := by
        rw [Nat.add_mul, Nat.one_mul, Nat.mul_comm]
        omega
      exact lt_of_lt_of_le h3 (Nat.mul_le_mul_right _ this)

/-- A step of the binary search halves the number of bits of the leading
part. -/
theorem lgStep_lt (k : Nat) (p : Nat × Nat) (h : p.1 < 2 ^ k * 2 ^ k) :
    (lgStep k p).1 < 2 ^ k := by
  unfold lgStep
  split_ifs with hlt
  · exact hlt
  · simp only [Nat.shiftRight_eq_div_pow]
    exact Nat.div_lt_of_lt_mul h

/-- The binary search computes `Nat.log2`. -/
theorem natLog2_eq (n : Nat) : natLog2 n = Nat.log2 n := by
  unfold natLog2
  split_ifs with hlt
  · by_cases hn : n = 0
    · subst hn
      have h1 : (lgStep 1 (lgStep 2 (lgStep 4 (lgStep 8 (lgStep 16 (lgStep 32 (lgStep 64
          (lgStep 128 (0, 0)))))))) : Nat × Nat).2 = 0 := by decide
      have h2 : Nat.log2 0 = 0 := by
        unfold Nat.log2
        simp
      rw [h1, h2]
    · have h0 : 1 ≤ ((n, 0) : Nat × Nat).1 ∧
          ((n, 0) : Nat × Nat).1 * 2 ^ ((n, 0) : Nat × Nat).2 ≤ n ∧
          n < (((n, 0) : Nat × Nat).1 + 1) * 2 ^ ((n, 0) : Nat × Nat).2 := by
        simp only [pow_zero, mul_one]
        omega
      have b0 : ((n, 0) : Nat × Nat).1 < 2 ^ 128 * 2 ^ 128 := by
        rw [← Nat.pow_add]; exact hlt
      have i4 := lgStep_inv n 128 _ h0
      have b4 := lgStep_lt 128 _ b0
      have i5 := lgStep_inv n 64 _ i4
      have b5 := lgStep_lt 64 _ (by rw [← Nat.pow_add]; exact b4)
      have i6 := lgStep_inv n 32 _ i5
      have b6 := lgStep_lt 32 _ (by rw [← Nat.pow_add]; exact b5)
      have i7 := lgStep_inv n 16 _ i6
      have b7 := lgStep_lt 16 _ (by rw [← Nat.pow_add]; exact b6)
      have i8 := lgStep_inv n 8 _ i7
      have b8 := lgStep_lt 8 _ (by rw [← Nat.pow_add]; exact b7)
      have i9 := lgStep_inv n 4 _ i8
      have b9 := lgStep_lt 4 _ (by rw [← Nat.pow_add]; exact b8)
      have i10 := lgStep_inv n 2 _ i9
      have b10 := lgStep_lt 2 _ (by rw [← Nat.pow_add]; exact b9)
      have i11 := lgStep_inv n 1 _ i10
      have b11 := lgStep_lt 1 _ (by rw [← Nat.pow_add]; exact b10)
      generalize lgStep 1 (lgStep 2 (lgStep 4 (lgStep 8 (lgStep 16 (lgStep 32 (lgStep 64
        (lgStep 128 (n, 0)))))))) = p at i11 b11 ⊢
      obtain ⟨h1, h2, h3⟩ := i11
      have hp1 : p.1 = 1 := by
        have : p.1 < 2 := by simpa using b11
        omega
      rw [hp1] at h2 h3
      have hle : p.2 ≤ Nat.log2 n := (Nat.le_log2 hn).mpr (by simpa using h2)
      have hlt' : Nat.log2 n < p.2 + 1 := (Nat.log2_lt hn).mpr (by
        rw [Nat.pow_succ]; omega)
      omega
  · rfl

/-- The integer `ratLog2 n d` is the floor of the binary logarithm of `n / d`:
`2 ^ ratLog2 n d <= n / d < 2 ^ (ratLog2 n d + 1)`. -/
theorem ratLog2_spec (n d : Nat) (hn : 0 < n) (hd : 0 < d) :
    (2 : ℚ) ^ ratLog2 n d ≤ (n : ℚ) / (d : ℚ) ∧
      (n : ℚ) / (d : ℚ) < (2 : ℚ) ^ (ratLog2 n d + 1) := by
  have hnQ : (0 : ℚ) < (n : ℚ) := by exact_mod_cast hn
  have hdQ : (0 : ℚ) < (d : ℚ) := by exact_mod_cast hd
  have ha1 : ((2 ^ Nat.log2 n : Nat) : ℚ) ≤ (n : ℚ) := by
    exact_mod_cast Nat.log2_self_le (Nat.pos_iff_ne_zero.mp hn)
  have ha2 : (n : ℚ) < ((2 ^ (Nat.log2 n + 1) : Nat) : ℚ) := by
    exact_mod_cast (Nat.lt_log2_self (n := n))
  have hb1 : ((2 ^ Nat.log2 d : Nat) : ℚ) ≤ (d : ℚ) := by
    exact_mod_cast Nat.log2_self_le (Nat.pos_iff_ne_zero.mp hd)
  have hb2 : (d : ℚ) < ((2 ^ (Nat.log2 d + 1) : Nat) : ℚ) := by
    exact_mod_cast (Nat.lt_log2_self (n := d))
  push_cast at ha1 ha2 hb1 hb2
  have h2 : (2 : ℚ) ≠ 0 := two_ne_zero
  have hpa : (0 : ℚ) < 2 ^ Nat.log2 n := pow_pos (by norm_num) _
  have hpb : (0 : ℚ) < 2 ^ Nat.log2 d := pow_pos (by norm_num) _
  -- the candidate exponent
  have hc : (2 : ℚ) ^ ((Nat.log2 n : Int) - (Nat.log2 d : Int))
      = 2 ^ Nat.log2 n / 2 ^ Nat.log2 d := by
    rw [zpow_sub₀ h2, zpow_natCast, zpow_natCast]
  have hlow : (2 : ℚ) ^ ((Nat.log2 n : Int) - (Nat.log2 d : Int) - 1) ≤ (n : ℚ) / (d : ℚ) := by
    rw [zpow_sub₀ h2, hc, zpow_one, div_div, le_div_iff₀ hdQ, div_mul_eq_mul_div,
      div_le_iff₀ (by positivity)]
    have : (d : ℚ) ≤ 2 ^ Nat.log2 d * 2 := by
      rw [← pow_succ]; exact le_of_lt hb2
    nlinarith
  have hhigh : (n : ℚ) / (d : ℚ) < (2 : ℚ) ^ ((Nat.log2 n : Int) - (Nat.log2 d : Int) + 1) := by
    rw [zpow_add₀ h2, hc, zpow_one, div_lt_iff₀ hdQ, div_mul_eq_mul_div, div_mul_eq_mul_div,
      lt_div_iff₀ hpb]
    have : (n : ℚ) < 2 ^ Nat.log2 n * 2 := by
      rw [← pow_succ]; exact ha2
    nlinarith
  -- the comparison made by `ratLog2`
  have htest : (if 0 ≤ (Nat.log2 n : Int) - (Nat.log2 d : Int)
        then d <<< ((Nat.log2 n : Int) - (Nat.log2 d : Int)).toNat ≤ n
        else d ≤ n <<< (-((Nat.log2 n : Int) - (Nat.log2 d : Int))).toNat)
      ↔ (2 : ℚ) ^ ((Nat.log2 n : Int) - (Nat.log2 d : Int)) ≤ (n : ℚ) / (d : ℚ) := by
    split_ifs with hsign
    · have hk : (((Nat.log2 n : Int) - (Nat.log2 d : Int)).toNat : Int)
          = (Nat.log2 n : Int) - (Nat.log2 d : Int) := Int.toNat_of_nonneg hsign
      rw [← hk, zpow_natCast, le_div_iff₀ hdQ, Nat.shiftLeft_eq]
      constructor
      · intro h
        have : ((d * 2 ^ ((Nat.log2 n : Int) - (Nat.log2 d : Int)).toNat : Nat) : ℚ) ≤ (n : ℚ) := by
          exact_mod_cast h
        push_cast at this
        linarith
      · intro h
        have : ((d * 2 ^ ((Nat.log2 n : Int) - (Nat.log2 d : Int)).toNat : Nat) : ℚ) ≤ (n : ℚ) := by
          push_cast; linarith
        exact_mod_cast this
    · have hneg : 0 ≤ -((Nat.log2 n : Int) - (Nat.log2 d : Int)) := by omega
      have hk : ((-((Nat.log2 n : Int) - (Nat.log2 d : Int))).toNat : Int)
          = -((Nat.log2 n : Int) - (Nat.log2 d : Int)) := Int.toNat_of_nonneg hneg
      have hz : (2 : ℚ) ^ ((Nat.log2 n : Int) - (Nat.log2 d : Int))
          = 1 / 2 ^ (-((Nat.log2 n : Int) - (Nat.log2 d : Int))).toNat := by
        rw [← zpow_natCast, hk, zpow_neg, one_div, inv_inv]
      have hp : (0 : ℚ) < 2 ^ (-((Nat.log2 n : Int) - (Nat.log2 d : Int))).toNat :=
        pow_pos (by norm_num) _
      rw [hz, div_le_div_iff₀ hp hdQ, one_mul, Nat.shiftLeft_eq]
      constructor
      · intro h
        have : ((d : Nat) : ℚ)
            ≤ ((n * 2 ^ (-((Nat.log2 n : Int) - (Nat.log2 d : Int))).toNat : Nat) : ℚ) := by
          exact_mod_cast h
        push_cast at this
        linarith
      · intro h
        have : ((d : Nat) : ℚ)
            ≤ ((n * 2 ^ (-((Nat.log2 n : Int) - (Nat.log2 d : Int))).toNat : Nat) : ℚ) := by
          push_cast; linarith
        exact_mod_cast this
  unfold ratLog2
  simp only [natLog2_eq]
  by_cases ht : (2 : ℚ) ^ ((Nat.log2 n : Int) - (Nat.log2 d : Int)) ≤ (n : ℚ) / (d : ℚ)
  · rw [if_pos (htest.mpr ht)]
    exact ⟨ht, hhigh⟩
  · rw [if_neg (fun h => ht (htest.mp h))]
    refine ⟨hlow, ?_⟩
    rw [sub_add_cancel]
    exact not_le.mp ht

/-- The rounded mantissa is within one half of the fraction. -/
theorem roundMantissa_error (n d : Nat) (hd : 0 < d) :
    |((roundMantissa n d : Nat) : ℚ) - (n : ℚ) / (d : ℚ)| ≤ 1 / 2 := by
  have hdm := Nat.div_add_mod n d
  have hmod := Nat.mod_lt n hd
  have hdQ : (0 : ℚ) < (d : ℚ) := by exact_mod_cast hd
  have key : 2 * (d * roundMantissa n d) ≤ 2 * n + d ∧ 2 * n ≤ 2 * (d * roundMantissa n d) + d := by
    unfold roundMantissa
    simp only
    split_ifs <;> first | omega | (simp only [Nat.mul_add, Nat.mul_one]; omega)
  obtain ⟨k1, k2⟩ := key
  have k1Q : (2 : ℚ) * ((d : ℚ) * (roundMantissa n d : ℚ)) ≤ 2 * (n : ℚ) + (d : ℚ) := by
    exact_mod_cast k1
  have k2Q : (2 : ℚ) * (n : ℚ) ≤ 2 * ((d : ℚ) * (roundMantissa n d : ℚ)) + (d : ℚ) := by
    exact_mod_cast k2
  have hx : (n : ℚ) / (d : ℚ) * (d : ℚ) = (n : ℚ) := div_mul_cancel₀ _ (ne_of_gt hdQ)
  rw [abs_le]
  constructor
  · have : (((n : ℚ) / (d : ℚ) - 1 / 2) - (roundMantissa n d : ℚ)) * (d : ℚ) ≤ 0 := by
      nlinarith
    have h := nonpos_of_mul_nonpos_left this hdQ
    linarith
  · have : ((roundMantissa n d : ℚ) - ((n : ℚ) / (d : ℚ) + 1 / 2)) * (d : ℚ) ≤ 0 := by
      nlinarith
    have h := nonpos_of_mul_nonpos_left this hdQ
    linarith

/-- An integer is its own rounded mantissa. -/
theorem roundMantissa_one (n : Nat) : roundMantissa n 1 = n := by
  unfold roundMantissa
  simp only [Nat.div_one, Nat.mod_one, Nat.mul_zero]
  rw [if_pos (by decide)]

/-- The absolute value of a rational is the absolute value of its numerator
over its denominator. -/
theorem abs_eq_natAbs_div (q : ℚ) : |q| = (q.num.natAbs : ℚ) / (q.den : ℚ) := by
  have hd : (0 : ℚ) < (q.den : ℚ) := by exact_mod_cast q.den_pos
  conv_lhs => rw [← Rat.num_div_den q]
  rw [abs_div, abs_of_pos hd, Nat.cast_natAbs, Int.cast_abs]

/-- The value `roundFloat` returns at a non-zero rational: the rounded
mantissa times the unit in the last place, with the sign of the rational. -/
theorem roundFloat_eq (prec : Nat) (emin : Int) (q : ℚ) (hq : q ≠ 0) :
    ∃ mant : Nat,
      |(mant : ℚ) - |q| / (2 : ℚ) ^ floatExponent prec emin q| ≤ 1 / 2 ∧
      roundFloat prec emin q
        = (if q.num < 0 then -1 else 1) * ((mant : ℚ) * (2 : ℚ) ^ floatExponent prec emin q) := by
  have hnum : q.num ≠ 0 := fun h => hq (Rat.zero_iff_num_zero.mpr h)
  have hn : q.num.natAbs ≠ 0 := fun h => hnum (Int.natAbs_eq_zero.mp h)
  have hden : 0 < q.den := q.den_pos
  have hdQ : (0 : ℚ) < (q.den : ℚ) := by exact_mod_cast hden
  have h2 : (2 : ℚ) ≠ 0 := two_ne_zero
  unfold roundFloat
  rw [if_neg hn]
  simp only
  generalize floatExponent prec emin q = e
  rw [abs_eq_natAbs_div q]
  by_cases he : 0 ≤ e
  · have hk : ((e.toNat : Nat) : Int) = e := Int.toNat_of_nonneg he
    have hz : (2 : ℚ) ^ e = 2 ^ e.toNat := by rw [← zpow_natCast, hk]
    have hp : (0 : ℚ) < 2 ^ e.toNat := pow_pos (by norm_num) _
    rw [if_pos he, if_pos he]
    refine ⟨roundMantissa q.num.natAbs (q.den <<< e.toNat), ?_, ?_⟩
    · have h := roundMantissa_error q.num.natAbs (q.den <<< e.toNat)
        (by rw [Nat.shiftLeft_eq]; exact Nat.mul_pos hden (Nat.two_pow_pos _))
      rw [Nat.shiftLeft_eq] at h
      push_cast at h
      rw [hz, div_div]
      rw [Nat.shiftLeft_eq]
      exact h
    · rw [hz, Nat.shiftLeft_eq]
      push_cast
      split_ifs <;> ring
  · have hneg : 0 ≤ -e := by omega
    have hk : (((-e).toNat : Nat) : Int) = -e := Int.toNat_of_nonneg hneg
    have hz : (2 : ℚ) ^ e = 1 / 2 ^ (-e).toNat := by
      rw [← zpow_natCast, hk, zpow_neg, one_div, inv_inv]
    have hp : (0 : ℚ) < 2 ^ (-e).toNat := pow_pos (by norm_num) _
    rw [if_neg he, if_neg he]
    refine ⟨roundMantissa (q.num.natAbs <<< (-e).toNat) q.den, ?_, ?_⟩
    · have h := roundMantissa_error (q.num.natAbs <<< (-e).toNat) q.den hden
      rw [Nat.shiftLeft_eq] at h
      push_cast at h
      rw [hz, Nat.shiftLeft_eq]
      have e1 : (q.num.natAbs : ℚ) / (q.den : ℚ) / (1 / 2 ^ (-e).toNat)
          = (q.num.natAbs : ℚ) * 2 ^ (-e).toNat / (q.den : ℚ) := by
        field_simp
      rw [e1]
      exact h
    · rw [hz, Rat.mkRat_eq_div, Nat.shiftLeft_eq, Nat.shiftLeft_eq]
      push_cast
      split_ifs <;> ring

/-- Rounding zero gives zero. -/
theorem roundFloat_zero (prec : Nat) (emin : Int) : roundFloat prec emin 0 = 0 := by
  unfold roundFloat
  simp

/-- The unit in the last place at `q` is at most `|q| * 2 ^ (1 - prec)`, or is
the least one `2 ^ emin`. -/
theorem floatExponent_le (prec : Nat) (emin : Int) (q : ℚ) (hq : q ≠ 0) :
    (2 : ℚ) ^ floatExponent prec emin q
      ≤ |q| * (2 : ℚ) ^ (1 - (prec : Int)) + (2 : ℚ) ^ emin := by
  have hnum : q.num ≠ 0 := fun h => hq (Rat.zero_iff_num_zero.mpr h)
  have hn : 0 < q.num.natAbs := Int.natAbs_pos.mpr hnum
  have hspec := (ratLog2_spec q.num.natAbs q.den hn q.den_pos).1
  rw [← abs_eq_natAbs_div q] at hspec
  have h2 : (2 : ℚ) ≠ 0 := two_ne_zero
  have hp1 : (0 : ℚ) < (2 : ℚ) ^ (1 - (prec : Int)) := zpow_pos (by norm_num) _
  have hp2 : (0 : ℚ) < (2 : ℚ) ^ emin := zpow_pos (by norm_num) _
  have habs : (0 : ℚ) ≤ |q| := abs_nonneg q
  unfold floatExponent
  rcases max_cases (ratLog2 q.num.natAbs q.den - ((prec : Int) - 1)) emin with ⟨hm, _⟩ | ⟨hm, _⟩
  · rw [hm]
    have e1 : (2 : ℚ) ^ (ratLog2 q.num.natAbs q.den - ((prec : Int) - 1))
        = (2 : ℚ) ^ ratLog2 q.num.natAbs q.den * (2 : ℚ) ^ (1 - (prec : Int)) := by
      rw [← zpow_add₀ h2]
      congr 1
      ring
    rw [e1]
    have := mul_le_mul_of_nonneg_right hspec (le_of_lt hp1)
    linarith
  · rw [hm]
    have := mul_nonneg habs (le_of_lt hp1)
    linarith

/-- The sign factor that `roundFloat` applies is the sign of the rational. -/
theorem sign_mul_abs (q : ℚ) : q = (if q.num < 0 then -1 else 1) * |q| := by
  split_ifs with h
  · have : q < 0 := Rat.num_neg.mp h
    rw [abs_of_neg this]; ring
  · have : 0 ≤ q := Rat.num_nonneg.mp (not_lt.mp h)
    rw [abs_of_nonneg this]; ring

/-- The rounding error is at most half a unit in the last place. -/
theorem roundFloat_error (prec : Nat) (emin : Int) (q : ℚ) :
    |roundFloat prec emin q - q|
      ≤ (|q| * (2 : ℚ) ^ (1 - (prec : Int)) + (2 : ℚ) ^ emin) / 2 := by
  by_cases hq : q = 0
  · subst hq
    rw [roundFloat_zero]
    have hp2 : (0 : ℚ) < (2 : ℚ) ^ emin := zpow_pos (by norm_num) _
    simp only [sub_zero, abs_zero, zero_mul, zero_add]
    linarith
  · obtain ⟨mant, hm, hr⟩ := roundFloat_eq prec emin q hq
    have hle := floatExponent_le prec emin q hq
    have hp : (0 : ℚ) < (2 : ℚ) ^ floatExponent prec emin q := zpow_pos (by norm_num) _
    have hs : |(if q.num < 0 then (-1 : ℚ) else 1)| = 1 := by
      split_ifs <;> simp
    have hqs := sign_mul_abs q
    have hdiff : roundFloat prec emin q - q
        = (if q.num < 0 then (-1 : ℚ) else 1)
          * (((mant : ℚ) - |q| / (2 : ℚ) ^ floatExponent prec emin q)
            * (2 : ℚ) ^ floatExponent prec emin q) := by
      have hcancel : |q| / (2 : ℚ) ^ floatExponent prec emin q
          * (2 : ℚ) ^ floatExponent prec emin q = |q| := div_mul_cancel₀ _ (ne_of_gt hp)
      have e2 : roundFloat prec emin q - q
          = (if q.num < 0 then (-1 : ℚ) else 1)
              * ((mant : ℚ) * (2 : ℚ) ^ floatExponent prec emin q)
            - (if q.num < 0 then (-1 : ℚ) else 1) * |q| := by
        rw [hr]
        exact congrArg (fun x => (if q.num < 0 then (-1 : ℚ) else 1)
          * ((mant : ℚ) * (2 : ℚ) ^ floatExponent prec emin q) - x) hqs
      rw [e2, sub_mul, hcancel]
      ring
    rw [hdiff, abs_mul, hs, one_mul, abs_mul, abs_of_pos hp]
    have := mul_le_mul_of_nonneg_right hm (le_of_lt hp)
    linarith

/-- Rounding keeps a non-negative rational non-negative. -/
theorem roundFloat_nonneg (prec : Nat) (emin : Int) (q : ℚ) (hq : 0 ≤ q) :
    0 ≤ roundFloat prec emin q := by
  by_cases h0 : q = 0
  · subst h0; rw [roundFloat_zero]
  · obtain ⟨mant, _, hr⟩ := roundFloat_eq prec emin q h0
    have hp : (0 : ℚ) < (2 : ℚ) ^ floatExponent prec emin q := zpow_pos (by norm_num) _
    have hnum : ¬ q.num < 0 := not_lt.mpr (Rat.num_nonneg.mpr hq)
    rw [hr, if_neg hnum, one_mul]
    positivity

/-- Rounding keeps a non-positive rational non-positive. -/
theorem roundFloat_nonpos (prec : Nat) (emin : Int) (q : ℚ) (hq : q ≤ 0) :
    roundFloat prec emin q ≤ 0 := by
  by_cases h0 : q = 0
  · subst h0; rw [roundFloat_zero]
  · obtain ⟨mant, _, hr⟩ := roundFloat_eq prec emin q h0
    have hp : (0 : ℚ) < (2 : ℚ) ^ floatExponent prec emin q := zpow_pos (by norm_num) _
    have hnum : q.num < 0 := Rat.num_neg.mpr (lt_of_le_of_ne hq h0)
    rw [hr, if_pos hnum]
    have : (0 : ℚ) ≤ (mant : ℚ) * (2 : ℚ) ^ floatExponent prec emin q := by positivity
    linarith

/-- An integer of fewer than `prec` bits is representable: rounding returns
it. -/
theorem roundFloat_intCast (prec : Nat) (emin : Int) (hemin : emin ≤ 0) (z : Int)
    (hz : z.natAbs < 2 ^ prec) : roundFloat prec emin (z : ℚ) = (z : ℚ) := by
  by_cases h0 : z = 0
  · subst h0
    simp only [Int.cast_zero]
    exact roundFloat_zero prec emin
  · have hn : 0 < z.natAbs := Int.natAbs_pos.mpr h0
    have hspec := (ratLog2_spec z.natAbs 1 hn Nat.one_pos).1
    have hlt : (2 : ℚ) ^ ratLog2 z.natAbs 1 < (2 : ℚ) ^ ((prec : Nat) : Int) := by
      have : ((z.natAbs : Nat) : ℚ) < ((2 ^ prec : Nat) : ℚ) := by exact_mod_cast hz
      rw [zpow_natCast]
      push_cast at this
      simp only [Nat.cast_one, div_one] at hspec
      linarith
    have hlg : ratLog2 z.natAbs 1 < (prec : Int) :=
      (zpow_lt_zpow_iff_right₀ (by norm_num : (1 : ℚ) < 2)).mp hlt
    have he : floatExponent prec emin (z : ℚ) ≤ 0 := by
      unfold floatExponent
      rw [Rat.num_intCast, Rat.den_intCast]
      exact max_le (by omega) hemin
    have hsign' : (z : ℚ) = (if z < 0 then (-1 : ℚ) else 1) * |(z : ℚ)| := by
      have h := sign_mul_abs (z : ℚ)
      rw [Rat.num_intCast] at h
      exact h
    have hsign : (z : ℚ) = (if z < 0 then (-1 : ℚ) else 1) * (z.natAbs : ℚ) := by
      rw [Nat.cast_natAbs, Int.cast_abs]
      exact hsign'
    unfold roundFloat
    simp only [Rat.num_intCast, Rat.den_intCast]
    rw [if_neg (Nat.pos_iff_ne_zero.mp hn)]
    revert he
    generalize floatExponent prec emin (z : ℚ) = e
    intro he
    by_cases he0 : 0 ≤ e
    · have : e = 0 := le_antisymm he he0
      subst this
      simp only [le_refl, if_true, Int.toNat_zero, Nat.shiftLeft_zero, roundMantissa_one]
      conv_rhs => rw [hsign]
      split_ifs <;> ring
    · rw [if_neg he0, if_neg he0, roundMantissa_one, Rat.mkRat_eq_div, Nat.shiftLeft_eq,
        Nat.shiftLeft_eq]
      have hp : (0 : ℚ) < 2 ^ (-e).toNat := pow_pos (by norm_num) _
      push_cast
      rw [one_mul, mul_div_assoc, div_self (ne_of_gt hp), mul_one]
      conv_rhs => rw [hsign']
      split_ifs <;> ring

/-- The rounding error of a `double` operation: at most `|q| / 2 ^ 53`, up to
the spacing of the subnormal numbers. -/
theorem roundDouble_error (q : ℚ) :
    |roundDouble q - q| ≤ |q| / 2 ^ 53 + 1 / 2 ^ 100 := by
  have h := roundFloat_error 53 (-1074) q
  have h1 : (2 : ℚ) ^ (1 - ((53 : Nat) : Int)) = 1 / 2 ^ 52 := by
    rw [show (1 : Int) - ((53 : Nat) : Int) = -((52 : Nat) : Int) by norm_num, zpow_neg,
      zpow_natCast, one_div]
  have h2 : (2 : ℚ) ^ (-1074 : Int) ≤ 1 / 2 ^ 99 := by
    have h3 : (2 : ℚ) ^ (-1074 : Int) ≤ (2 : ℚ) ^ (-((99 : Nat) : Int)) :=
      zpow_le_zpow_right₀ (by norm_num) (by norm_num)
    have e : (2 : ℚ) ^ (-((99 : Nat) : Int)) = 1 / 2 ^ 99 := by
      rw [zpow_neg, zpow_natCast, one_div]
    rw [e] at h3
    exact h3
  rw [h1] at h
  have habs : (0 : ℚ) ≤ |q| := abs_nonneg q
  unfold roundDouble
  have e1 : |q| * (1 / 2 ^ 52) / 2 = |q| / 2 ^ 53 := by ring
  have e2 : (1 : ℚ) / 2 ^ 99 / 2 = 1 / 2 ^ 100 := by norm_num
  calc |roundFloat 53 (-1074) q - q|
      ≤ (|q| * (1 / 2 ^ 52) + (2 : ℚ) ^ (-1074 : Int)) / 2 := h
    _ ≤ (|q| * (1 / 2 ^ 52) + 1 / 2 ^ 99) / 2 := by linarith
    _ = |q| / 2 ^ 53 + 1 / 2 ^ 100 := by rw [add_div, e1, e2]

/-- The rounding error of a `float` operation: at most `|q| / 2 ^ 24`, up to
the spacing of the subnormal numbers. -/
theorem roundSingle_error (q : ℚ) :
    |roundSingle q - q| ≤ |q| / 2 ^ 24 + 1 / 2 ^ 100 := by
  have h := roundFloat_error 24 (-149) q
  have h1 : (2 : ℚ) ^ (1 - ((24 : Nat) : Int)) = 1 / 2 ^ 23 := by
    rw [show (1 : Int) - ((24 : Nat) : Int) = -((23 : Nat) : Int) by norm_num, zpow_neg,
      zpow_natCast, one_div]
  have h2 : (2 : ℚ) ^ (-149 : Int) ≤ 1 / 2 ^ 99 := by
    have h3 : (2 : ℚ) ^ (-149 : Int) ≤ (2 : ℚ) ^ (-((99 : Nat) : Int)) :=
      zpow_le_zpow_right₀ (by norm_num) (by norm_num)
    have e : (2 : ℚ) ^ (-((99 : Nat) : Int)) = 1 / 2 ^ 99 := by
      rw [zpow_neg, zpow_natCast, one_div]
    rw [e] at h3
    exact h3
  rw [h1] at h
  have habs : (0 : ℚ) ≤ |q| := abs_nonneg q
  unfold roundSingle
  have e1 : |q| * (1 / 2 ^ 23) / 2 = |q| / 2 ^ 24 := by ring
  have e2 : (1 : ℚ) / 2 ^ 99 / 2 = 1 / 2 ^ 100 := by norm_num
  calc |roundFloat 24 (-149) q - q|
      ≤ (|q| * (1 / 2 ^ 23) + (2 : ℚ) ^ (-149 : Int)) / 2 := h
    _ ≤ (|q| * (1 / 2 ^ 23) + 1 / 2 ^ 99) / 2 := by linarith
    _ = |q| / 2 ^ 24 + 1 / 2 ^ 100 := by rw [add_div, e1, e2]

/-- A `double` result lies within `B / 2 ^ 53 + 2 ^ (-100)` of the exact
result, when the exact result is at most `B` in absolute value. -/
theorem roundDouble_bounds (q B : ℚ) (hB : |q| ≤ B) :
    q - (B / 2 ^ 53 + 1 / 2 ^ 100) ≤ roundDouble q ∧
      roundDouble q ≤ q + (B / 2 ^ 53 + 1 / 2 ^ 100) := by
  have h := abs_le.mp (roundDouble_error q)
  have hdiv : |q| / 2 ^ 53 ≤ B / 2 ^ 53 := div_le_div_of_nonneg_right hB (by positivity)
  constructor <;> linarith [h.1, h.2]

/-- A `float` result lies within `B / 2 ^ 24 + 2 ^ (-100)` of the exact result,
when the exact result is at most `B` in absolute value. -/
theorem roundSingle_bounds (q B : ℚ) (hB : |q| ≤ B) :
    q - (B / 2 ^ 24 + 1 / 2 ^ 100) ≤ roundSingle q ∧
      roundSingle q ≤ q + (B / 2 ^ 24 + 1 / 2 ^ 100) := by
  have h := abs_le.mp (roundSingle_error q)
  have hdiv : |q| / 2 ^ 24 ≤ B / 2 ^ 24 := div_le_div_of_nonneg_right hB (by positivity)
  constructor <;> linarith [h.1, h.2]

/-- Rounding zero to `double` gives zero. -/
theorem roundDouble_zero : roundDouble 0 = 0 := roundFloat_zero 53 (-1074)

/-- A non-negative rational rounds to a non-negative `double`. -/
theorem roundDouble_nonneg (q : ℚ) (hq : 0 ≤ q) : 0 ≤ roundDouble q :=
  roundFloat_nonneg 53 (-1074) q hq

/-- A non-positive rational rounds to a non-positive `double`. -/
theorem roundDouble_nonpos (q : ℚ) (hq : q ≤ 0) : roundDouble q ≤ 0 :=
  roundFloat_nonpos 53 (-1074) q hq

/-- A natural number below `2 ^ 53` is a `double`. -/
theorem roundDouble_natCast (n : Nat) (hn : n < 2 ^ 53) : roundDouble (n : ℚ) = (n : ℚ) := by
  have h := roundFloat_intCast 53 (-1074) (by norm_num) (n : Int) (by simpa using hn)
  simpa [roundDouble] using h

/-- An integer of absolute value below `2 ^ 24` is a `float`. -/
theorem roundSingle_intCast (z : Int) (hz : z.natAbs < 2 ^ 24) :
    roundSingle (z : ℚ) = (z : ℚ) :=
  roundFloat_intCast 24 (-149) (by norm_num) z hz

/-! ## The colour table: endpoints -/

/-- Entry `i` of the table is `ColorInterpEntry i`, for every `i` below 256. -/
theorem BuildColorInterpTable_getElem? (i : Nat) (h : i < 256) :
    BuildColorInterpTable[i]? = some (ColorInterpEntry i) := by
  simp [BuildColorInterpTable, List.getElem?_range h]

/-- The table has 256 entries. -/
theorem BuildColorInterpTable_length : BuildColorInterpTable.length = 256 := by
  simp [BuildColorInterpTable]

/-- C1 (as stated, refuted): entry 0 of the table is `0xffd0d058`, whose
channels are not within 1 of those of `LOCOLOR`, and entry 255 is `0xff405010`,
whose channels are not within 1 of those of `HICOLOR`. -/
theorem C1_table_endpoints_not_as_stated :
    BuildColorInterpTable[0]? = some 0xffd0d058 ∧
    ¬ ChannelsWithin 1 0xffd0d058 LOCOLOR ∧
    BuildColorInterpTable[255]? = some 0xff405010 ∧
    ¬ ChannelsWithin 1 0xff405010 HICOLOR := by
  refine ⟨?_, by decide, ?_, by decide⟩
  · rw [BuildColorInterpTable_getElem? 0 (by decide)]; decide!
  · rw [BuildColorInterpTable_getElem? 255 (by decide)]; decide!

/-- C1 (amended): the table entry at index 0, as the double arithmetic of the
code yields it, is the high endpoint colour `HICOLOR` and the entry at index
255 is the low endpoint colour `LOCOLOR`, each in all four channels (so every
channel differs by 0). -/
theorem C1_table_endpoints :
    BuildColorInterpTable[0]? = some HICOLOR ∧
    BuildColorInterpTable[255]? = some LOCOLOR ∧
    ChannelsWithin 0 (BuildColorInterpTable.getD 0 0) HICOLOR ∧
    ChannelsWithin 0 (BuildColorInterpTable.getD 255 0) LOCOLOR := by
  have h0 : BuildColorInterpTable[0]? = some HICOLOR := by
    rw [BuildColorInterpTable_getElem? 0 (by decide)]; decide!
  have h255 : BuildColorInterpTable[255]? = some LOCOLOR := by
    rw [BuildColorInterpTable_getElem? 255 (by decide)]; decide!
  refine ⟨h0, h255, ?_, ?_⟩
  · rw [List.getD_eq_getElem?_getD, h0]; decide
  · rw [List.getD_eq_getElem?_getD, h255]; decide

/-! ## The panel: decay of one cell -/

/-- The low byte of a natural number is at most 255. -/
theorem and_0xff_le (v : Nat) : v &&& 0xff ≤ 255 := by
  have h := Nat.and_pow_two_sub_one_eq_mod v 8
  norm_num at h
  omega

/-- The low byte of a natural number is at most the number. -/
theorem and_0xff_le_self (v : Nat) : v &&& 0xff ≤ v := by
  have h := Nat.and_pow_two_sub_one_eq_mod v 8
  norm_num at h
  rw [h]; exact Nat.mod_le v 256

/-- The mask `& 0xff` is the remainder modulo 256. -/
theorem and_0xff_eq_mod (v : Nat) : v &&& 0xff = v % 256 :=
  Nat.and_pow_two_sub_one_eq_mod v 8

/-- The value `Uint8ToDouble v` depends on the low byte of `v` only. -/
theorem Uint8ToDouble_mod (v : Nat) : Uint8ToDouble v = Uint8ToDouble (v % 256) := by
  unfold Uint8ToDouble
  rw [and_0xff_eq_mod, and_0xff_eq_mod, Nat.mod_mod]

/-- The value `Uint8ToDouble v` is non-negative. -/
theorem Uint8ToDouble_nonneg (v : Nat) : 0 ≤ Uint8ToDouble v := by
  unfold Uint8ToDouble
  exact roundDouble_nonneg _ (by positivity)

/-- For every byte, the double `Uint8ToDouble m` is at most 1. -/
theorem Uint8ToDouble_le_one_byte : ∀ m : Nat, m < 256 → Uint8ToDouble m ≤ 1 := by
  decide!

/-- The value `Uint8ToDouble v` is at most 1. -/
theorem Uint8ToDouble_le_one (v : Nat) : Uint8ToDouble v ≤ 1 := by
  rw [Uint8ToDouble_mod]
  exact Uint8ToDouble_le_one_byte _ (Nat.mod_lt _ (by decide))

/-- The value `Uint8ToDouble v` exceeds the exact quotient by at most
`2 ^ (-52)`. -/
theorem Uint8ToDouble_le (v : Nat) :
    Uint8ToDouble v ≤ ((v &&& 0xff : Nat) : ℚ) / 255 + 1 / 2 ^ 52 := by
  have hm : ((v &&& 0xff : Nat) : ℚ) ≤ 255 := by exact_mod_cast and_0xff_le v
  have h0 : (0 : ℚ) ≤ ((v &&& 0xff : Nat) : ℚ) := by positivity
  have hq0 : (0 : ℚ) ≤ ((v &&& 0xff : Nat) : ℚ) / 255 := by positivity
  have hq1 : ((v &&& 0xff : Nat) : ℚ) / 255 ≤ 1 := by
    rw [div_le_one (by norm_num)]; exact hm
  have h := (roundDouble_bounds (((v &&& 0xff : Nat) : ℚ) / 255) 1
    (by rw [abs_of_nonneg hq0]; exact hq1)).2
  unfold Uint8ToDouble
  have hc : (1 : ℚ) / 2 ^ 53 + 1 / 2 ^ 100 ≤ 1 / 2 ^ 52 := by norm_num
  linarith

/-- The clamp to `[0, 1]` lies in `[0, 1]`. -/
theorem SDL_clamp_unit_mem (v : ℚ) : 0 ≤ SDL_clamp v 0 1 ∧ SDL_clamp v 0 1 ≤ 1 := by
  unfold SDL_clamp
  split_ifs with h1 h2
  · exact ⟨le_rfl, zero_le_one⟩
  · exact ⟨zero_le_one, le_rfl⟩
  · exact ⟨not_lt.mp h1, not_lt.mp h2⟩

/-- The clamp to `[0, 1]` of a non-negative rational does not exceed it. -/
theorem SDL_clamp_unit_le (v : ℚ) (hv : 0 ≤ v) : SDL_clamp v 0 1 ≤ v := by
  unfold SDL_clamp
  split_ifs with h1 h2
  · exact hv
  · exact le_of_lt h2
  · exact le_rfl

/-- The clamp to `[0, 1]` leaves a rational of `[0, 1]` unchanged. -/
theorem SDL_clamp_unit_of_mem (v : ℚ) (h0 : 0 ≤ v) (h1 : v ≤ 1) : SDL_clamp v 0 1 = v := by
  unfold SDL_clamp
  rw [if_neg (not_lt.mpr h0), if_neg (not_lt.mpr h1)]

/-- The rounded product of `DoubleToUint8` lies in `[0, 256)`. -/
theorem DoubleToUint8_product_mem (v : ℚ) :
    0 ≤ roundDouble (255 * SDL_clamp v 0 1) ∧ roundDouble (255 * SDL_clamp v 0 1) < 256 := by
  obtain ⟨c0, c1⟩ := SDL_clamp_unit_mem v
  have hx0 : (0 : ℚ) ≤ 255 * SDL_clamp v 0 1 := by positivity
  have hx1 : 255 * SDL_clamp v 0 1 ≤ 255 := by linarith
  have h := (roundDouble_bounds (255 * SDL_clamp v 0 1) 255
    (by rw [abs_of_nonneg hx0]; exact hx1)).2
  refine ⟨roundDouble_nonneg _ hx0, ?_⟩
  have hc : (255 : ℚ) / 2 ^ 53 + 1 / 2 ^ 100 < 1 := by norm_num
  linarith

/-- The byte `DoubleToUint8 v` is the floor of the rounded product. -/
theorem DoubleToUint8_eq_floor (v : ℚ) :
    ((DoubleToUint8 v : Nat) : Int) = ⌊roundDouble (255 * SDL_clamp v 0 1)⌋ := by
  obtain ⟨h0, h1⟩ := DoubleToUint8_product_mem v
  have hf0 : 0 ≤ ⌊roundDouble (255 * SDL_clamp v 0 1)⌋ := Int.floor_nonneg.mpr h0
  have hf1 : ⌊roundDouble (255 * SDL_clamp v 0 1)⌋ < 256 := by
    rw [Int.floor_lt]; exact_mod_cast h1
  unfold DoubleToUint8
  omega

/-- The byte `DoubleToUint8 v` is at most `K` when the exact product is at most
`K + 1 / 2`. -/
theorem DoubleToUint8_le (v : ℚ) (K : Nat) (h : 255 * SDL_clamp v 0 1 ≤ (K : ℚ) + 1 / 2) :
    DoubleToUint8 v ≤ K := by
  obtain ⟨c0, c1⟩ := SDL_clamp_unit_mem v
  have hx0 : (0 : ℚ) ≤ 255 * SDL_clamp v 0 1 := by positivity
  have hx1 : 255 * SDL_clamp v 0 1 ≤ 255 := by linarith
  have hb := (roundDouble_bounds (255 * SDL_clamp v 0 1) 255
    (by rw [abs_of_nonneg hx0]; exact hx1)).2
  have hc : (255 : ℚ) / 2 ^ 53 + 1 / 2 ^ 100 < 1 / 2 := by norm_num
  have hlt : roundDouble (255 * SDL_clamp v 0 1) < ((K + 1 : Int) : ℚ) := by
    push_cast; linarith
  have hfl : ⌊roundDouble (255 * SDL_clamp v 0 1)⌋ < (K : Int) + 1 := Int.floor_lt.mpr hlt
  have he := DoubleToUint8_eq_floor v
  omega

/-- The byte `DoubleToUint8 0` is 0. -/
theorem DoubleToUint8_zero : DoubleToUint8 0 = 0 := by decide!

/-- The macro `fmax(0.0, w)` is `w` when `w` is positive and 0 otherwise. -/
theorem fmax_zero (w : ℚ) : fmax 0 w = if 0 < w then w else 0 := rfl

/-- For a non-negative elapsed time the decay of a cell does not raise it. -/
theorem LCDDecayCell_le (dt : ℚ) (hdt : 0 ≤ dt) (cell : Nat) :
    LCDDecayCell dt cell ≤ cell := by
  have hm := and_0xff_le_self cell
  have hm255 := and_0xff_le cell
  have hu0 := Uint8ToDouble_nonneg cell
  have hu1 := Uint8ToDouble_le_one cell
  have hule := Uint8ToDouble_le cell
  have ht : 0 ≤ roundDouble ((LCD_DECAY_RATE : ℚ) * dt) :=
    roundDouble_nonneg _ (by positivity)
  suffices h : LCDDecayCell dt cell ≤ cell &&& 0xff from le_trans h hm
  unfold LCDDecayCell
  simp only
  rw [fmax_zero]
  split_ifs with hw
  · -- the rounded difference is positive
    have hpos : 0 < Uint8ToDouble cell - roundDouble ((LCD_DECAY_RATE : ℚ) * dt) := by
      by_contra hn
      have := roundDouble_nonpos _ (not_lt.mp hn)
      linarith
    have hb := (roundDouble_bounds
      (Uint8ToDouble cell - roundDouble ((LCD_DECAY_RATE : ℚ) * dt)) 1
      (by rw [abs_of_pos hpos]; linarith)).2
    by_cases h255 : cell &&& 0xff = 255
    · rw [h255]
      have := DoubleToUint8_product_mem
        (roundDouble (Uint8ToDouble cell - roundDouble ((LCD_DECAY_RATE : ℚ) * dt)))
      have he := DoubleToUint8_eq_floor
        (roundDouble (Uint8ToDouble cell - roundDouble ((LCD_DECAY_RATE : ℚ) * dt)))
      have hfl : ⌊roundDouble (255 * SDL_clamp
          (roundDouble (Uint8ToDouble cell - roundDouble ((LCD_DECAY_RATE : ℚ) * dt))) 0 1)⌋
          < 256 := by
        rw [Int.floor_lt]; exact_mod_cast this.2
      omega
    · apply DoubleToUint8_le
      have hcl := SDL_clamp_unit_le _ (le_of_lt hw)
      have hc : (1 : ℚ) / 2 ^ 53 + 1 / 2 ^ 100 ≤ 1 / 2 ^ 52 := by norm_num
      have hc2 : (255 : ℚ) * (1 / 2 ^ 52 + 1 / 2 ^ 52) ≤ 1 / 2 := by norm_num
      have hmQ : (255 : ℚ) * (((cell &&& 0xff : Nat) : ℚ) / 255) = ((cell &&& 0xff : Nat) : ℚ) := by
        field_simp
      nlinarith
  · rw [DoubleToUint8_zero]
    exact Nat.zero_le _

/-- An elapsed time of at least a tenth of a second clears a cell. -/
theorem LCDDecayCell_eq_zero (dt : ℚ) (hdt : 1 / 10 ≤ dt) (cell : Nat) :
    LCDDecayCell dt cell = 0 := by
  have hu1 := Uint8ToDouble_le_one cell
  have hrate : ((LCD_DECAY_RATE : Nat) : ℚ) = 10 := by
    unfold LCD_DECAY_RATE; norm_num
  have hx : (1 : ℚ) ≤ (LCD_DECAY_RATE : ℚ) * dt := by rw [hrate]; linarith
  have hxabs : |(LCD_DECAY_RATE : ℚ) * dt| = (LCD_DECAY_RATE : ℚ) * dt :=
    abs_of_nonneg (by linarith)
  have herr := abs_le.mp (roundDouble_error ((LCD_DECAY_RATE : ℚ) * dt))
  rw [hxabs] at herr
  have ht : 1 - 1 / 2 ^ 52 ≤ roundDouble ((LCD_DECAY_RATE : ℚ) * dt) := by
    have h1 := herr.1
    have hc : (1 : ℚ) / 2 ^ 53 + 1 / 2 ^ 100 ≤ 1 / 2 ^ 52 := by norm_num
    have hk : (0 : ℚ) ≤ ((LCD_DECAY_RATE : ℚ) * dt - 1) * (1 - 1 / 2 ^ 53) :=
      mul_nonneg (by linarith) (by norm_num)
    have e : (LCD_DECAY_RATE : ℚ) * dt / 2 ^ 53 = (LCD_DECAY_RATE : ℚ) * dt * (1 / 2 ^ 53) := by
      ring
    rw [e] at h1
    nlinarith
  unfold LCDDecayCell
  simp only
  rw [fmax_zero]
  split_ifs with hw
  · have hpos : 0 < Uint8ToDouble cell - roundDouble ((LCD_DECAY_RATE : ℚ) * dt) := by
      by_contra hn
      have := roundDouble_nonpos _ (not_lt.mp hn)
      linarith
    have hb := (roundDouble_bounds
      (Uint8ToDouble cell - roundDouble ((LCD_DECAY_RATE : ℚ) * dt)) 1
      (by rw [abs_of_pos hpos]; linarith)).2
    have h0 : DoubleToUint8
        (roundDouble (Uint8ToDouble cell - roundDouble ((LCD_DECAY_RATE : ℚ) * dt))) ≤ 0 := by
      apply DoubleToUint8_le
      have hcl := SDL_clamp_unit_le _ (le_of_lt hw)
      have hc : (1 : ℚ) / 2 ^ 52 + (1 / 2 ^ 53 + 1 / 2 ^ 100) ≤ 1 / 2 ^ 51 := by norm_num
      have hc2 : (255 : ℚ) * (1 / 2 ^ 51) ≤ 1 / 2 := by norm_num
      push_cast
      nlinarith
    omega
  · exact DoubleToUint8_zero

/-! ## The panel: pen movement and the plot index -/

/-- The clamp of an integer lies between the bounds, when they are ordered. -/
theorem SDL_clamp_int_bounds (x a b : Int) (hab : a ≤ b) :
    a ≤ SDL_clamp x a b ∧ SDL_clamp x a b ≤ b := by
  unfold SDL_clamp
  split_ifs <;> omega

/-- The clamp leaves an integer that lies between the bounds unchanged. -/
theorem SDL_clamp_int_of_mem (x a b : Int) (ha : a ≤ x) (hb : x ≤ b) :
    SDL_clamp x a b = x := by
  unfold SDL_clamp
  split_ifs <;> omega

/-- The moved pen lies in `[0, SCREEN_WIDTH] x [0, SCREEN_HEIGHT]`. -/
theorem LCDMovePen_bounds (ks : KeyboardState) (pos : ivec2) :
    0 ≤ (LCDMovePen ks pos).x ∧ (LCDMovePen ks pos).x ≤ 60 ∧
    0 ≤ (LCDMovePen ks pos).y ∧ (LCDMovePen ks pos).y ≤ 40 := by
  have hx := SDL_clamp_int_bounds
    (pos.x + (if IsKeyDown ks SDL_SCANCODE_LEFT then
      (if IsKeyDown ks SDL_SCANCODE_RIGHT then (0 : Int) + 1 else 0) - 1
      else (if IsKeyDown ks SDL_SCANCODE_RIGHT then (0 : Int) + 1 else 0)))
    0 (SCREEN_WIDTH : Int) (by decide)
  have hy := SDL_clamp_int_bounds
    (pos.y + (if IsKeyDown ks SDL_SCANCODE_UP then
      (if IsKeyDown ks SDL_SCANCODE_DOWN then (0 : Int) + 1 else 0) - 1
      else (if IsKeyDown ks SDL_SCANCODE_DOWN then (0 : Int) + 1 else 0)))
    0 (SCREEN_HEIGHT : Int) (by decide)
  have hw : ((SCREEN_WIDTH : Nat) : Int) = 60 := by decide
  have hh : ((SCREEN_HEIGHT : Nat) : Int) = 40 := by decide
  rw [hw] at hx
  rw [hh] at hy
  exact ⟨hx.1, hx.2, hy.1, hy.2⟩

/-- For a pen with non-negative coordinates below `2 ^ 32` the offset is
`y * 60 + x`. -/
theorem GetLCDOffset_eq (x y : Int) (hx0 : 0 ≤ x) (hx : x < 2 ^ 32) (hy0 : 0 ≤ y)
    (hy : y < 2 ^ 32) : ((GetLCDOffset x y : Nat) : Int) = y * 60 + x := by
  unfold GetLCDOffset
  have hw : ((SCREEN_WIDTH : Nat) : Int) = 60 := by decide
  rw [hw]
  norm_num at hx hy ⊢
  omega

/-- When the plot index is inside the panel, `LCDUpdate` returns the decayed
panel with the plotted cell set to 255, and the moved pen. -/
theorem LCDUpdate_of_lt (dt : ℚ) (ks : KeyboardState) (s : LCDState)
    (h : LCDPlotOffset ks s.g_PixelPos < g_LCDPanelSize) :
    LCDUpdate dt ks s = some
      { g_LCDPanel := (LCDDecay dt s.g_LCDPanel).set (LCDPlotOffset ks s.g_PixelPos) 255
        g_PixelPos := LCDMovePen ks s.g_PixelPos } := by
  unfold LCDPlotOffset at h
  simp only [LCDUpdate, LCDPlotOffset]
  rw [if_pos h]

/-- When the plot index is outside the panel, `LCDUpdate` has no result. -/
theorem LCDUpdate_of_ge (dt : ℚ) (ks : KeyboardState) (s : LCDState)
    (h : g_LCDPanelSize ≤ LCDPlotOffset ks s.g_PixelPos) :
    LCDUpdate dt ks s = none := by
  have h' : ¬ GetLCDOffset (LCDMovePen ks s.g_PixelPos).x (LCDMovePen ks s.g_PixelPos).y
      < g_LCDPanelSize := Nat.not_lt.mpr h
  simp only [LCDUpdate]
  rw [if_neg h']

/-- Whenever `LCDUpdate` returns a state, that state is the decayed panel with
the plotted cell set to 255 and the moved pen, and the plot index is inside
the panel. -/
theorem LCDUpdate_eq_some (dt : ℚ) (ks : KeyboardState) (s s' : LCDState)
    (h : LCDUpdate dt ks s = some s') :
    LCDPlotOffset ks s.g_PixelPos < g_LCDPanelSize ∧
    s'.g_PixelPos = LCDMovePen ks s.g_PixelPos ∧
    s'.g_LCDPanel = (LCDDecay dt s.g_LCDPanel).set (LCDPlotOffset ks s.g_PixelPos) 255 := by
  by_cases hlt : LCDPlotOffset ks s.g_PixelPos < g_LCDPanelSize
  · rw [LCDUpdate_of_lt dt ks s hlt] at h
    cases h
    exact ⟨hlt, rfl, rfl⟩
  · rw [LCDUpdate_of_ge dt ks s (by omega)] at h
    cases h

/-- The decay pass keeps the number of cells. -/
theorem LCDDecay_length (dt : ℚ) (panel : List Nat) :
    (LCDDecay dt panel).length = panel.length := by
  simp [LCDDecay]

/-- An elapsed time of at least a tenth of a second clears the panel. -/
theorem LCDDecay_eq_replicate (dt : ℚ) (hdt : 1 / 10 ≤ dt) (panel : List Nat) :
    LCDDecay dt panel = List.replicate panel.length 0 := by
  unfold LCDDecay
  induction panel with
  | nil => rfl
  | cons a t ih =>
    simp only [List.map_cons, List.length_cons, List.replicate_succ, ih,
      LCDDecayCell_eq_zero dt hdt a]

/-- The panel of `litState` has `g_LCDPanelSize` cells. -/
theorem litState_length (x y : Int) : (litState x y).g_LCDPanel.length = g_LCDPanelSize := by
  simp [litState]

/-- One call of `LCDUpdate` with an elapsed time of one second, from a state
whose panel has `g_LCDPanelSize` cells, leads to the `litState` of the moved
pen, provided the plot index is inside the panel. -/
theorem LCDUpdate_one_second (ks : KeyboardState) (s : LCDState)
    (hlen : s.g_LCDPanel.length = g_LCDPanelSize)
    (h : LCDPlotOffset ks s.g_PixelPos < g_LCDPanelSize) :
    LCDUpdate 1 ks s =
      some (litState (LCDMovePen ks s.g_PixelPos).x (LCDMovePen ks s.g_PixelPos).y) := by
  rw [LCDUpdate_of_lt 1 ks s h, LCDDecay_eq_replicate 1 (by norm_num), hlen]
  rfl

/-- From a reachable state whose panel has `g_LCDPanelSize` cells, the
`litState` of the moved pen is reachable when the plot index is inside the
panel. -/
theorem Reachable_litState_step (ks : KeyboardState) (s : LCDState) (hs : Reachable s)
    (hlen : s.g_LCDPanel.length = g_LCDPanelSize)
    (h : LCDPlotOffset ks s.g_PixelPos < g_LCDPanelSize) :
    Reachable (litState (LCDMovePen ks s.g_PixelPos).x (LCDMovePen ks s.g_PixelPos).y) :=
  Reachable.step s _ 1 ks hs (by norm_num) (LCDUpdate_one_second ks s hlen h)

/-- With only DOWN held the pen moves one row down, up to row `SCREEN_HEIGHT`. -/
theorem LCDMovePen_down (x y : Int) (hx0 : 0 ≤ x) (hx : x ≤ 60) (hy0 : 0 ≤ y + 1)
    (hy : y + 1 ≤ 40) :
    LCDMovePen (keysHeld [SDL_SCANCODE_DOWN]) { x := x, y := y } = { x := x, y := y + 1 } := by
  have hw : ((SCREEN_WIDTH : Nat) : Int) = 60 := by decide
  have hh : ((SCREEN_HEIGHT : Nat) : Int) = 40 := by decide
  simp only [LCDMovePen, IsKeyDown, keysHeld, SDL_SCANCODE_DOWN, SDL_SCANCODE_UP,
    SDL_SCANCODE_LEFT, SDL_SCANCODE_RIGHT, hw, hh]
  simp only [List.mem_singleton, Nat.reduceEqDiff, decide_False, decide_True, if_true,
    Bool.false_eq_true, if_false, add_zero, zero_add]
  rw [SDL_clamp_int_of_mem x 0 60 hx0 hx, SDL_clamp_int_of_mem (y + 1) 0 40 hy0 hy]

/-- With only RIGHT held the pen moves one column right, up to column
`SCREEN_WIDTH`. -/
theorem LCDMovePen_right (x y : Int) (hx0 : 0 ≤ x + 1) (hx : x + 1 ≤ 60) (hy0 : 0 ≤ y)
    (hy : y ≤ 40) :
    LCDMovePen (keysHeld [SDL_SCANCODE_RIGHT]) { x := x, y := y } = { x := x + 1, y := y } := by
  have hw : ((SCREEN_WIDTH : Nat) : Int) = 60 := by decide
  have hh : ((SCREEN_HEIGHT : Nat) : Int) = 40 := by decide
  simp only [LCDMovePen, IsKeyDown, keysHeld, SDL_SCANCODE_DOWN, SDL_SCANCODE_UP,
    SDL_SCANCODE_LEFT, SDL_SCANCODE_RIGHT, hw, hh]
  simp only [List.mem_singleton, Nat.reduceEqDiff, decide_False, decide_True, if_true,
    Bool.false_eq_true, if_false, add_zero, zero_add]
  rw [SDL_clamp_int_of_mem (x + 1) 0 60 hx0 hx, SDL_clamp_int_of_mem y 0 40 hy0 hy]

/-- The dark panel is well formed. -/
theorem PanelWF_replicate : PanelWF (List.replicate g_LCDPanelSize 0) := by
  refine ⟨by simp, ?_⟩
  intro v hv
  rw [List.mem_replicate] at hv
  omega

/-- Holding DOWN for `k + 1` ticks of one second from the initial pen with a
dark panel reaches the pen `(30, 21 + k)`, for `k ≤ 18`. -/
theorem Reachable_down (k : Nat) (hk : k ≤ 18) : Reachable (litState 30 (21 + (k : Int))) := by
  induction k with
  | zero =>
    have h := Reachable_litState_step (keysHeld [SDL_SCANCODE_DOWN])
      { g_LCDPanel := List.replicate g_LCDPanelSize 0, g_PixelPos := initialPixelPos }
      (Reachable.init _ PanelWF_replicate) (by simp) (by decide)
    have hm : LCDMovePen (keysHeld [SDL_SCANCODE_DOWN]) initialPixelPos
        = { x := 30, y := 21 } := by decide
    simp only [hm] at h
    simpa using h
  | succ n ih =>
    have hr := ih (by omega)
    have hm := LCDMovePen_down 30 (21 + (n : Int)) (by norm_num) (by norm_num) (by omega)
      (by omega)
    have hoff := GetLCDOffset_eq 30 (21 + (n : Int) + 1) (by norm_num) (by norm_num)
      (by omega) (by norm_num; omega)
    have h := Reachable_litState_step (keysHeld [SDL_SCANCODE_DOWN]) _ hr
      (litState_length _ _) (by
        have hsz : g_LCDPanelSize = 2400 := by decide
        simp only [LCDPlotOffset, litState, hm, hsz]
        omega)
    simp only [litState, hm] at h
    have e : (21 : Int) + ((n + 1 : Nat) : Int) = 21 + (n : Int) + 1 := by push_cast; ring
    rw [e]
    exact h

/-- Holding RIGHT for `k + 1` ticks of one second from the initial pen with a
dark panel reaches the pen `(31 + k, 20)`, for `k ≤ 29`. -/
theorem Reachable_right (k : Nat) (hk : k ≤ 29) : Reachable (litState (31 + (k : Int)) 20) := by
  induction k with
  | zero =>
    have h := Reachable_litState_step (keysHeld [SDL_SCANCODE_RIGHT])
      { g_LCDPanel := List.replicate g_LCDPanelSize 0, g_PixelPos := initialPixelPos }
      (Reachable.init _ PanelWF_replicate) (by simp) (by decide)
    have hm : LCDMovePen (keysHeld [SDL_SCANCODE_RIGHT]) initialPixelPos
        = { x := 31, y := 20 } := by decide
    simp only [hm] at h
    simpa using h
  | succ n ih =>
    have hr := ih (by omega)
    have hm := LCDMovePen_right (31 + (n : Int)) 20 (by omega) (by omega) (by norm_num)
      (by norm_num)
    have hoff := GetLCDOffset_eq (31 + (n : Int) + 1) 20 (by omega) (by norm_num; omega)
      (by norm_num) (by norm_num)
    have h := Reachable_litState_step (keysHeld [SDL_SCANCODE_RIGHT]) _ hr
      (litState_length _ _) (by
        have hsz : g_LCDPanelSize = 2400 := by decide
        simp only [LCDPlotOffset, litState, hm, hsz]
        omega)
    simp only [litState, hm] at h
    have e : (31 : Int) + ((n + 1 : Nat) : Int) = 31 + (n : Int) + 1 := by push_cast; ring
    rw [e]
    exact h

/-- Holding DOWN for 19 ticks from the initial state reaches the pen `(30, 39)`. -/
theorem Reachable_30_39 : Reachable (litState 30 39) := by
  have h := Reachable_down 18 (by decide)
  norm_num at h
  exact h

/-- Holding RIGHT for 29 ticks from the initial state reaches the pen `(59, 20)`. -/
theorem Reachable_59_20 : Reachable (litState 59 20) := by
  have h := Reachable_right 28 (by decide)
  norm_num at h
  exact h

/-- When `LCDUpdate` returns a state from a panel of `g_LCDPanelSize` cells,
the cell at the plot index of the new pen holds 255. -/
theorem LCDUpdate_plotted_cell (dt : ℚ) (ks : KeyboardState) (s s' : LCDState)
    (hlen : s.g_LCDPanel.length = g_LCDPanelSize) (h : LCDUpdate dt ks s = some s') :
    s'.g_LCDPanel[GetLCDOffset s'.g_PixelPos.x s'.g_PixelPos.y]? = some 255 := by
  obtain ⟨hlt, hpos, hpanel⟩ := LCDUpdate_eq_some dt ks s s' h
  rw [hpos, hpanel]
  have hl : LCDPlotOffset ks s.g_PixelPos < (LCDDecay dt s.g_LCDPanel).length := by
    rw [LCDDecay_length, hlen]; exact hlt
  show ((LCDDecay dt s.g_LCDPanel).set (LCDPlotOffset ks s.g_PixelPos) 255)[
    LCDPlotOffset ks s.g_PixelPos]? = some 255
  rw [List.getElem?_set_eq_of_lt 255 hl]

/-! ## Claims on the panel update -/

/-- C2 (failing input): the state with pen `(30, 39)` is reachable from the
initial state, and there a call of `LCDUpdate` with DOWN held plots at index
`40 * 60 + 30 = 2430`, which is not below `g_LCDPanelSize = 2400`: the plot
index is not always a valid index of the panel, and `LCDUpdate` has no
defined result. -/
theorem C2_plot_index_out_of_bounds :
    Reachable (litState 30 39) ∧
    LCDPlotOffset (keysHeld [SDL_SCANCODE_DOWN]) (litState 30 39).g_PixelPos = 2430 ∧
    g_LCDPanelSize = 2400 ∧
    LCDUpdate 0 (keysHeld [SDL_SCANCODE_DOWN]) (litState 30 39) = none ∧
    ¬ (∀ (s : LCDState) (dt : ℚ) (ks : KeyboardState), Reachable s → 0 ≤ dt →
        LCDPlotOffset ks s.g_PixelPos < g_LCDPanelSize) := by
  have hoff : LCDPlotOffset (keysHeld [SDL_SCANCODE_DOWN]) (litState 30 39).g_PixelPos
      = 2430 := by decide
  refine ⟨Reachable_30_39, hoff, by decide, ?_, ?_⟩
  · exact LCDUpdate_of_ge 0 _ _ (by rw [hoff]; decide)
  · intro hall
    have h := hall (litState 30 39) 0 (keysHeld [SDL_SCANCODE_DOWN]) Reachable_30_39 le_rfl
    rw [hoff] at h
    exact absurd h (by decide)

/-- C3 (failing input): from the reachable state with pen `(30, 39)`, a call
of `LCDUpdate` with DOWN and RIGHT held moves the pen to `(31, 40)`, whose
index `2431` is no cell of the 2400-cell panel, so that no state follows in
which the cell of the new pen holds 255. -/
theorem C3_plotted_cell_missing :
    Reachable (litState 30 39) ∧
    LCDMovePen (keysHeld [SDL_SCANCODE_DOWN, SDL_SCANCODE_RIGHT]) (litState 30 39).g_PixelPos
      = { x := 31, y := 40 } ∧
    GetLCDOffset 31 40 = 2431 ∧
    (LCDDecay (1 / 60) (litState 30 39).g_LCDPanel).length = 2400 ∧
    LCDUpdate (1 / 60) (keysHeld [SDL_SCANCODE_DOWN, SDL_SCANCODE_RIGHT]) (litState 30 39)
      = none := by
  refine ⟨Reachable_30_39, by decide, by decide, ?_, ?_⟩
  · rw [LCDDecay_length, litState_length]; decide
  · exact LCDUpdate_of_ge _ _ _ (by decide)

/-- C4 (failing input): the state with pen `(60, 20)` is reachable from the
initial state (it follows the reachable pen `(59, 20)` by one call of
`LCDUpdate` with RIGHT held), and its `x` exceeds `SCREEN_WIDTH - 1`: the
predicate `0 <= x <= SCREEN_WIDTH - 1` is not preserved by `LCDUpdate`. -/
theorem C4_pen_leaves_grid :
    Reachable (litState 59 20) ∧
    LCDUpdate 1 (keysHeld [SDL_SCANCODE_RIGHT]) (litState 59 20) = some (litState 60 20) ∧
    Reachable (litState 60 20) ∧
    (litState 60 20).g_PixelPos.x = 60 ∧
    ¬ ((litState 60 20).g_PixelPos.x ≤ (SCREEN_WIDTH : Int) - 1) := by
  have hstep : LCDUpdate 1 (keysHeld [SDL_SCANCODE_RIGHT]) (litState 59 20)
      = some (litState 60 20) := by
    have h := LCDUpdate_one_second (keysHeld [SDL_SCANCODE_RIGHT]) (litState 59 20)
      (litState_length _ _) (by decide)
    have hm : LCDMovePen (keysHeld [SDL_SCANCODE_RIGHT]) (litState 59 20).g_PixelPos
        = { x := 60, y := 20 } := by decide
    rw [hm] at h
    exact h
  refine ⟨Reachable_59_20, hstep, ?_, rfl, by decide⟩
  exact Reachable.step _ _ 1 _ Reachable_59_20 (by norm_num) hstep

/-- C5: for every prior pen position and every key snapshot, the pen that
`LCDUpdate` computes (lines 199-208) satisfies `0 <= x <= SCREEN_WIDTH` and
`0 <= y <= SCREEN_HEIGHT`, and so does the pen of every state that `LCDUpdate`
returns. The pen is an integer pair; the model agrees with the 32-bit
arithmetic of the code whenever the sum with the delta does not overflow. -/
theorem C5_pen_within_clamp_range (dt : ℚ) (ks : KeyboardState) (s : LCDState) :
    (0 ≤ (LCDMovePen ks s.g_PixelPos).x ∧
      (LCDMovePen ks s.g_PixelPos).x ≤ (SCREEN_WIDTH : Int) ∧
      0 ≤ (LCDMovePen ks s.g_PixelPos).y ∧
      (LCDMovePen ks s.g_PixelPos).y ≤ (SCREEN_HEIGHT : Int)) ∧
    ∀ s' : LCDState, LCDUpdate dt ks s = some s' →
      0 ≤ s'.g_PixelPos.x ∧ s'.g_PixelPos.x ≤ (SCREEN_WIDTH : Int) ∧
      0 ≤ s'.g_PixelPos.y ∧ s'.g_PixelPos.y ≤ (SCREEN_HEIGHT : Int) := by
  have hw : ((SCREEN_WIDTH : Nat) : Int) = 60 := by decide
  have hh : ((SCREEN_HEIGHT : Nat) : Int) = 40 := by decide
  rw [hw, hh]
  refine ⟨LCDMovePen_bounds ks s.g_PixelPos, ?_⟩
  intro s' h
  rw [(LCDUpdate_eq_some dt ks s s' h).2.1]
  exact LCDMovePen_bounds ks s.g_PixelPos

/-- C5 at a concrete input: the pen `(59, 20)` with RIGHT held. -/
theorem C5_pen_within_clamp_range_witness :
    0 ≤ (litState 60 20).g_PixelPos.x ∧
    (litState 60 20).g_PixelPos.x ≤ (SCREEN_WIDTH : Int) ∧
    0 ≤ (litState 60 20).g_PixelPos.y ∧
    (litState 60 20).g_PixelPos.y ≤ (SCREEN_HEIGHT : Int) :=
  (C5_pen_within_clamp_range 1 (keysHeld [SDL_SCANCODE_RIGHT]) (litState 59 20)).2
    (litState 60 20)
    (by
      have h := LCDUpdate_one_second (keysHeld [SDL_SCANCODE_RIGHT]) (litState 59 20)
        (litState_length _ _) (by decide)
      have hm : LCDMovePen (keysHeld [SDL_SCANCODE_RIGHT]) (litState 59 20).g_PixelPos
          = { x := 60, y := 20 } := by decide
      rw [hm] at h
      exact h)

/-- C6: for every panel, every elapsed time `>= 0` and every key snapshot, the
decay pass lowers or keeps every cell, and in every state that `LCDUpdate`
returns, every cell whose index is not the plot index holds a value less than
or equal to its value before the call. -/
theorem C6_decay_monotone (dt : ℚ) (hdt : 0 ≤ dt) (ks : KeyboardState) (s : LCDState) :
    (LCDDecay dt s.g_LCDPanel).length = s.g_LCDPanel.length ∧
    (∀ i : Nat, i < s.g_LCDPanel.length →
      ∃ v v' : Nat, s.g_LCDPanel[i]? = some v ∧ (LCDDecay dt s.g_LCDPanel)[i]? = some v' ∧
        v' ≤ v) ∧
    ∀ s' : LCDState, LCDUpdate dt ks s = some s' →
      s'.g_LCDPanel.length = s.g_LCDPanel.length ∧
      ∀ i : Nat, i < s.g_LCDPanel.length → i ≠ LCDPlotOffset ks s.g_PixelPos →
        ∃ v v' : Nat, s.g_LCDPanel[i]? = some v ∧ s'.g_LCDPanel[i]? = some v' ∧ v' ≤ v := by
  have hdecay : ∀ i : Nat, i < s.g_LCDPanel.length →
      ∃ v v' : Nat, s.g_LCDPanel[i]? = some v ∧ (LCDDecay dt s.g_LCDPanel)[i]? = some v' ∧
        v' ≤ v := by
    intro i hi
    refine ⟨s.g_LCDPanel[i], LCDDecayCell dt s.g_LCDPanel[i], ?_, ?_, ?_⟩
    · exact List.getElem?_eq_getElem hi
    · simp [LCDDecay, List.getElem?_eq_getElem hi]
    · exact LCDDecayCell_le dt hdt _
  refine ⟨LCDDecay_length dt _, hdecay, ?_⟩
  intro s' h
  obtain ⟨_, _, hpanel⟩ := LCDUpdate_eq_some dt ks s s' h
  rw [hpanel]
  refine ⟨by rw [List.length_set, LCDDecay_length], ?_⟩
  intro i hi hne
  rw [List.getElem?_set_ne (Ne.symm hne)]
  exact hdecay i hi

/-- C6 at a concrete input: a sixtieth of a second, RIGHT held, pen `(59, 20)`. -/
theorem C6_decay_monotone_witness :
    (LCDDecay (1 / 60) (litState 59 20).g_LCDPanel).length
      = (litState 59 20).g_LCDPanel.length ∧
    (∀ i : Nat, i < (litState 59 20).g_LCDPanel.length →
      ∃ v v' : Nat, (litState 59 20).g_LCDPanel[i]? = some v ∧
        (LCDDecay (1 / 60) (litState 59 20).g_LCDPanel)[i]? = some v' ∧ v' ≤ v) ∧
    ∀ s' : LCDState,
      LCDUpdate (1 / 60) (keysHeld [SDL_SCANCODE_RIGHT]) (litState 59 20) = some s' →
      s'.g_LCDPanel.length = (litState 59 20).g_LCDPanel.length ∧
      ∀ i : Nat, i < (litState 59 20).g_LCDPanel.length →
        i ≠ LCDPlotOffset (keysHeld [SDL_SCANCODE_RIGHT]) (litState 59 20).g_PixelPos →
        ∃ v v' : Nat, (litState 59 20).g_LCDPanel[i]? = some v ∧
          s'.g_LCDPanel[i]? = some v' ∧ v' ≤ v :=
  C6_decay_monotone (1 / 60) (by norm_num) (keysHeld [SDL_SCANCODE_RIGHT]) (litState 59 20)

/-- C7: for every pen within `[0, 60] x [0, 40]`, if UP and DOWN are both held
the pen movement of `LCDUpdate` leaves `y` unchanged, and if LEFT and RIGHT are
both held it leaves `x` unchanged, whatever the other keys; the same holds of
the pen of every state that `LCDUpdate` returns. -/
theorem C7_opposing_keys_cancel (ks : KeyboardState) (s : LCDState)
    (hx0 : 0 ≤ s.g_PixelPos.x) (hx : s.g_PixelPos.x ≤ (SCREEN_WIDTH : Int))
    (hy0 : 0 ≤ s.g_PixelPos.y) (hy : s.g_PixelPos.y ≤ (SCREEN_HEIGHT : Int)) :
    (IsKeyDown ks SDL_SCANCODE_UP = true → IsKeyDown ks SDL_SCANCODE_DOWN = true →
      (LCDMovePen ks s.g_PixelPos).y = s.g_PixelPos.y ∧
      ∀ (dt : ℚ) (s' : LCDState), LCDUpdate dt ks s = some s' →
        s'.g_PixelPos.y = s.g_PixelPos.y) ∧
    (IsKeyDown ks SDL_SCANCODE_LEFT = true → IsKeyDown ks SDL_SCANCODE_RIGHT = true →
      (LCDMovePen ks s.g_PixelPos).x = s.g_PixelPos.x ∧
      ∀ (dt : ℚ) (s' : LCDState), LCDUpdate dt ks s = some s' →
        s'.g_PixelPos.x = s.g_PixelPos.x) := by
  constructor
  · intro hu hd
    have hm : (LCDMovePen ks s.g_PixelPos).y = s.g_PixelPos.y := by
      simp only [LCDMovePen, hu, hd, if_true]
      rw [show (0 : Int) + 1 - 1 = 0 from rfl, add_zero]
      exact SDL_clamp_int_of_mem _ _ _ hy0 hy
    refine ⟨hm, ?_⟩
    intro dt s' h
    rw [(LCDUpdate_eq_some dt ks s s' h).2.1, hm]
  · intro hl hr
    have hm : (LCDMovePen ks s.g_PixelPos).x = s.g_PixelPos.x := by
      simp only [LCDMovePen, hl, hr, if_true]
      rw [show (0 : Int) + 1 - 1 = 0 from rfl, add_zero]
      exact SDL_clamp_int_of_mem _ _ _ hx0 hx
    refine ⟨hm, ?_⟩
    intro dt s' h
    rw [(LCDUpdate_eq_some dt ks s s' h).2.1, hm]

/-- C7 at a concrete input: the pen `(60, 20)` with all four keys held. -/
theorem C7_opposing_keys_cancel_witness :
    (LCDMovePen (keysHeld [SDL_SCANCODE_UP, SDL_SCANCODE_DOWN, SDL_SCANCODE_LEFT,
        SDL_SCANCODE_RIGHT]) (litState 60 20).g_PixelPos).y = 20 ∧
    (LCDMovePen (keysHeld [SDL_SCANCODE_UP, SDL_SCANCODE_DOWN, SDL_SCANCODE_LEFT,
        SDL_SCANCODE_RIGHT]) (litState 60 20).g_PixelPos).x = 60 :=
  ⟨((C7_opposing_keys_cancel (keysHeld [SDL_SCANCODE_UP, SDL_SCANCODE_DOWN,
      SDL_SCANCODE_LEFT, SDL_SCANCODE_RIGHT]) (litState 60 20)
      (by decide) (by decide) (by decide) (by decide)).1 (by decide) (by decide)).1,
   ((C7_opposing_keys_cancel (keysHeld [SDL_SCANCODE_UP, SDL_SCANCODE_DOWN,
      SDL_SCANCODE_LEFT, SDL_SCANCODE_RIGHT]) (litState 60 20)
      (by decide) (by decide) (by decide) (by decide)).2 (by decide) (by decide)).1⟩

/-! ## Placement of the framebuffer -/

/-- The macro `SDL_min` on rationals is the minimum. -/
theorem SDL_min_eq_min (a b : ℚ) : SDL_min a b = min a b := by
  unfold SDL_min
  split_ifs with h
  · exact (min_eq_left (le_of_lt h)).symm
  · exact (min_eq_right (not_lt.mp h)).symm

/-- For an output width below `2 ^ 24` the floor of the `float` quotient by 60
is the integer quotient. -/
theorem floor_roundSingle_div_60 (w : Int) (h0 : 0 ≤ w) (h1 : w < 2 ^ 24) :
    ⌊roundSingle ((w : ℚ) / 60)⌋ = w / 60 := by
  have hdm := Int.emod_add_ediv w 60
  have hr0 := Int.emod_nonneg w (by norm_num : (60 : Int) ≠ 0)
  have hr1 := Int.emod_lt_of_pos w (by norm_num : (0 : Int) < 60)
  have hx : (w : ℚ) / 60 = ((w / 60 : Int) : ℚ) + ((w % 60 : Int) : ℚ) / 60 := by
    have : (w : ℚ) = ((w % 60 + 60 * (w / 60) : Int) : ℚ) := by rw [hdm]
    rw [this]; push_cast; ring
  by_cases hr : w % 60 = 0
  · rw [hx, hr]
    simp only [Int.cast_zero, zero_div, add_zero]
    rw [roundSingle_intCast (w / 60) (by omega), Int.floor_intCast]
  · have hrQ1 : (1 : ℚ) ≤ ((w % 60 : Int) : ℚ) := by
      have : (1 : Int) ≤ w % 60 := by omega
      exact_mod_cast this
    have hrQ2 : ((w % 60 : Int) : ℚ) ≤ 59 := by
      have : w % 60 ≤ (59 : Int) := by omega
      exact_mod_cast this
    have hwQ0 : (0 : ℚ) ≤ (w : ℚ) := by exact_mod_cast h0
    have hwQ1 : (w : ℚ) ≤ 16777215 := by
      have : w ≤ (16777215 : Int) := by norm_num at h1; omega
      exact_mod_cast this
    have hq0 : (0 : ℚ) ≤ (w : ℚ) / 60 := by positivity
    have hb := roundSingle_bounds ((w : ℚ) / 60) (16777215 / 60)
      (by rw [abs_of_nonneg hq0]; linarith)
    rw [Int.floor_eq_iff]
    constructor
    · have hc : (16777215 : ℚ) / 60 / 2 ^ 24 + 1 / 2 ^ 100 < 1 / 60 := by norm_num
      linarith [hb.1]
    · have hc : (16777215 : ℚ) / 60 / 2 ^ 24 + 1 / 2 ^ 100 < 1 / 60 := by norm_num
      linarith [hb.2]

/-- For an output height below `2 ^ 24` the floor of the `float` quotient by 40
is the integer quotient. -/
theorem floor_roundSingle_div_40 (w : Int) (h0 : 0 ≤ w) (h1 : w < 2 ^ 24) :
    ⌊roundSingle ((w : ℚ) / 40)⌋ = w / 40 := by
  have hdm := Int.emod_add_ediv w 40
  have hr0 := Int.emod_nonneg w (by norm_num : (40 : Int) ≠ 0)
  have hr1 := Int.emod_lt_of_pos w (by norm_num : (0 : Int) < 40)
  have hx : (w : ℚ) / 40 = ((w / 40 : Int) : ℚ) + ((w % 40 : Int) : ℚ) / 40 := by
    have : (w : ℚ) = ((w % 40 + 40 * (w / 40) : Int) : ℚ) := by rw [hdm]
    rw [this]; push_cast; ring
  by_cases hr : w % 40 = 0
  · rw [hx, hr]
    simp only [Int.cast_zero, zero_div, add_zero]
    rw [roundSingle_intCast (w / 40) (by omega), Int.floor_intCast]
  · have hrQ1 : (1 : ℚ) ≤ ((w % 40 : Int) : ℚ) := by
      have : (1 : Int) ≤ w % 40 := by omega
      exact_mod_cast this
    have hrQ2 : ((w % 40 : Int) : ℚ) ≤ 39 := by
      have : w % 40 ≤ (39 : Int) := by omega
      exact_mod_cast this
    have hwQ0 : (0 : ℚ) ≤ (w : ℚ) := by exact_mod_cast h0
    have hwQ1 : (w : ℚ) ≤ 16777215 := by
      have : w ≤ (16777215 : Int) := by norm_num at h1; omega
      exact_mod_cast this
    have hq0 : (0 : ℚ) ≤ (w : ℚ) / 40 := by positivity
    have hb := roundSingle_bounds ((w : ℚ) / 40) (16777215 / 40)
      (by rw [abs_of_nonneg hq0]; linarith)
    rw [Int.floor_eq_iff]
    constructor
    · have hc : (16777215 : ℚ) / 40 / 2 ^ 24 + 1 / 2 ^ 100 < 1 / 40 := by norm_num
      linarith [hb.1]
    · have hc : (16777215 : ℚ) / 40 / 2 ^ 24 + 1 / 2 ^ 100 < 1 / 40 := by norm_num
      linarith [hb.2]

/-- The scale of `DrawFramebuffer` for an output size below `2 ^ 24` on both
axes: the smaller of the two integer quotients, raised to 1 when it is below
1. -/
theorem DrawFramebuffer_scale (w h : Int) (hw0 : 0 ≤ w) (hw1 : w < 2 ^ 24) (hh0 : 0 ≤ h)
    (hh1 : h < 2 ^ 24) :
    (DrawFramebuffer w h).scale = max 1 (min (w / 60) (h / 40)) := by
  have ew : ((SCREEN_WIDTH : Nat) : ℚ) = 60 := by norm_num [SCREEN_WIDTH]
  have eh : ((SCREEN_HEIGHT : Nat) : ℚ) = 40 := by norm_num [SCREEN_HEIGHT]
  have hfloor : ⌊SDL_min (roundSingle (roundSingle (w : ℚ) / (SCREEN_WIDTH : ℚ)))
      (roundSingle (roundSingle (h : ℚ) / (SCREEN_HEIGHT : ℚ)))⌋
      = min (w / 60) (h / 40) := by
    rw [SDL_min_eq_min, (Int.floor_mono (α := ℚ)).map_min, ew, eh,
      roundSingle_intCast w (by omega), roundSingle_intCast h (by omega),
      floor_roundSingle_div_60 w hw0 hw1, floor_roundSingle_div_40 h hh0 hh1]
  simp only [DrawFramebuffer, hfloor]
  split_ifs with hlt <;> omega

/-- The scale of `DrawFramebuffer` is 1 when the output is narrower than 60 or
lower than 40. -/
theorem DrawFramebuffer_scale_small (w h : Int)
    (hsmall : (1 ≤ w ∧ w < 60) ∨ (1 ≤ h ∧ h < 40)) :
    (DrawFramebuffer w h).scale = 1 := by
  have ew : ((SCREEN_WIDTH : Nat) : ℚ) = 60 := by norm_num [SCREEN_WIDTH]
  have eh : ((SCREEN_HEIGHT : Nat) : ℚ) = 40 := by norm_num [SCREEN_HEIGHT]
  have hlt : SDL_min (roundSingle (roundSingle (w : ℚ) / (SCREEN_WIDTH : ℚ)))
      (roundSingle (roundSingle (h : ℚ) / (SCREEN_HEIGHT : ℚ))) < 1 := by
    rw [SDL_min_eq_min, ew, eh]
    rcases hsmall with ⟨h1, h2⟩ | ⟨h1, h2⟩
    · apply lt_of_le_of_lt (min_le_left _ _)
      rw [roundSingle_intCast w (by omega)]
      have hq0 : (0 : ℚ) ≤ (w : ℚ) / 60 := by
        have : (0 : ℚ) ≤ (w : ℚ) := by exact_mod_cast (by omega : (0 : Int) ≤ w)
        positivity
      have hq1 : (w : ℚ) / 60 ≤ 59 / 60 := by
        have : (w : ℚ) ≤ 59 := by exact_mod_cast (by omega : w ≤ (59 : Int))
        linarith
      have hb := (roundSingle_bounds ((w : ℚ) / 60) 1
        (by rw [abs_of_nonneg hq0]; linarith)).2
      have hc : (1 : ℚ) / 2 ^ 24 + 1 / 2 ^ 100 < 1 / 60 := by norm_num
      linarith
    · apply lt_of_le_of_lt (min_le_right _ _)
      rw [roundSingle_intCast h (by omega)]
      have hq0 : (0 : ℚ) ≤ (h : ℚ) / 40 := by
        have : (0 : ℚ) ≤ (h : ℚ) := by exact_mod_cast (by omega : (0 : Int) ≤ h)
        positivity
      have hq1 : (h : ℚ) / 40 ≤ 39 / 40 := by
        have : (h : ℚ) ≤ 39 := by exact_mod_cast (by omega : h ≤ (39 : Int))
        linarith
      have hb := (roundSingle_bounds ((h : ℚ) / 40) 1
        (by rw [abs_of_nonneg hq0]; linarith)).2
      have hc : (1 : ℚ) / 2 ^ 24 + 1 / 2 ^ 100 < 1 / 40 := by norm_num
      linarith
  have hfl : ⌊SDL_min (roundSingle (roundSingle (w : ℚ) / (SCREEN_WIDTH : ℚ)))
      (roundSingle (roundSingle (h : ℚ) / (SCREEN_HEIGHT : ℚ)))⌋ < 1 := by
    rw [Int.floor_lt]; exact_mod_cast hlt
  simp only [DrawFramebuffer]
  rw [if_pos hfl]

/-- The destination rectangle of `DrawFramebuffer` in terms of its scale. -/
theorem DrawFramebuffer_dst (w h : Int) :
    (DrawFramebuffer w h).dst =
      { x := Int.tdiv (w - 60 * (DrawFramebuffer w h).scale) 2
        y := Int.tdiv (h - 40 * (DrawFramebuffer w h).scale) 2
        w := 60 * (DrawFramebuffer w h).scale
        h := 40 * (DrawFramebuffer w h).scale } := by
  rfl

/-- C8 (as stated, refuted): for the output size 16777259 x 11184840, at least
60 x 40, the conversion `(float)windowWidth` rounds the width up to 16777260,
so that `DrawFramebuffer` computes the scale 279621 and a rectangle of width
16777260: `60 * scale` exceeds the output width, and the scale is neither the
largest fitting integer nor `max 1 (min (outputW / 60) (outputH / 40))`, which
is 279620. -/
theorem C8_scale_exceeds_large_output :
    DrawFramebuffer 16777259 11184840
      = { scale := 279621, dst := { x := 0, y := 0, w := 16777260, h := 11184840 } } ∧
    (SCREEN_WIDTH : Int) ≤ 16777259 ∧ (SCREEN_HEIGHT : Int) ≤ 11184840 ∧
    ¬ ((SCREEN_WIDTH : Int) * (DrawFramebuffer 16777259 11184840).scale ≤ 16777259) ∧
    (DrawFramebuffer 16777259 11184840).scale
      ≠ max 1 (min (16777259 / (SCREEN_WIDTH : Int)) (11184840 / (SCREEN_HEIGHT : Int))) := by
  have h : DrawFramebuffer 16777259 11184840
      = { scale := 279621, dst := { x := 0, y := 0, w := 16777260, h := 11184840 } } := by
    decide!
  rw [h]
  exact ⟨rfl, by decide, by decide, by decide, by decide⟩

/-- C8 (amended): for every output size with `60 <= outputW < 2 ^ 24` and
`40 <= outputH < 2 ^ 24`, the scale of `DrawFramebuffer` is the largest integer
`s` with `60 * s <= outputW` and `40 * s <= outputH`, it equals
`max 1 (min (outputW / 60) (outputH / 40))` with integer (floor) quotients, and
the destination rectangle has width `60 * scale` and height `40 * scale`; a
600 x 400 output gives scale 10 and the rectangle 600 x 400 at offsets
`(0, 0)`. -/
theorem C8_scale_is_largest_fit (w h : Int) (hw : (SCREEN_WIDTH : Int) ≤ w)
    (hh : (SCREEN_HEIGHT : Int) ≤ h) (hw24 : w < 2 ^ 24) (hh24 : h < 2 ^ 24) :
    ((SCREEN_WIDTH : Int) * (DrawFramebuffer w h).scale ≤ w ∧
      (SCREEN_HEIGHT : Int) * (DrawFramebuffer w h).scale ≤ h ∧
      ∀ s : Int, (SCREEN_WIDTH : Int) * s ≤ w → (SCREEN_HEIGHT : Int) * s ≤ h →
        s ≤ (DrawFramebuffer w h).scale) ∧
    (DrawFramebuffer w h).scale
      = max 1 (min (w / (SCREEN_WIDTH : Int)) (h / (SCREEN_HEIGHT : Int))) ∧
    (DrawFramebuffer w h).dst.w = (SCREEN_WIDTH : Int) * (DrawFramebuffer w h).scale ∧
    (DrawFramebuffer w h).dst.h = (SCREEN_HEIGHT : Int) * (DrawFramebuffer w h).scale ∧
    DrawFramebuffer 600 400 = { scale := 10, dst := { x := 0, y := 0, w := 600, h := 400 } } := by
  have ew : ((SCREEN_WIDTH : Nat) : Int) = 60 := by decide
  have eh : ((SCREEN_HEIGHT : Nat) : Int) = 40 := by decide
  rw [ew] at hw
  rw [eh] at hh
  simp only [ew, eh]
  have hs := DrawFramebuffer_scale w h (by omega) hw24 (by omega) hh24
  refine ⟨⟨?_, ?_, ?_⟩, hs, rfl, rfl, by decide!⟩
  · rw [hs]; omega
  · rw [hs]; omega
  · intro s h1 h2
    rw [hs]; omega

/-- C8 at a concrete input: a 301 x 205 output has scale 5. -/
theorem C8_scale_is_largest_fit_witness :
    (DrawFramebuffer 301 205).scale
      = max 1 (min (301 / (SCREEN_WIDTH : Int)) (205 / (SCREEN_HEIGHT : Int))) :=
  (C8_scale_is_largest_fit 301 205 (by decide) (by decide) (by decide) (by decide)).2.1

/-- The C quotient by 2 of a non-negative integer is its floor quotient. -/
theorem tdiv_two_of_nonneg (a : Int) (ha : 0 ≤ a) : Int.tdiv a 2 = a / 2 :=
  Int.tdiv_eq_ediv ha (by decide)

/-- The C quotient by 2 of a non-positive integer rounds toward zero: it is
the negated floor quotient of the negated integer. -/
theorem tdiv_two_of_nonpos (a : Int) (ha : a ≤ 0) : Int.tdiv a 2 = -((-a) / 2) := by
  have h : Int.tdiv (-(-a)) 2 = -(Int.tdiv (-a) 2) := Int.neg_tdiv (-a) 2
  rw [neg_neg] at h
  rw [h, Int.tdiv_eq_ediv (by omega) (by decide)]

/-- C9 (as stated, refuted): for the output size 16777319 x 11184880, at least
60 x 40, the conversion `(float)windowWidth` rounds the width up to 16777320,
so that `DrawFramebuffer` computes the rectangle 16777320 x 11184880 at offsets
`(0, 0)`: offset plus width exceeds the output width, and the trailing margin
minus the leading margin is -1. -/
theorem C9_destination_outside_large_output :
    DrawFramebuffer 16777319 11184880
      = { scale := 279622, dst := { x := 0, y := 0, w := 16777320, h := 11184880 } } ∧
    (SCREEN_WIDTH : Int) ≤ 16777319 ∧ (SCREEN_HEIGHT : Int) ≤ 11184880 ∧
    ¬ ((DrawFramebuffer 16777319 11184880).dst.x + (DrawFramebuffer 16777319 11184880).dst.w
        ≤ 16777319) ∧
    (16777319 - (DrawFramebuffer 16777319 11184880).dst.w
        - (DrawFramebuffer 16777319 11184880).dst.x)
      - (DrawFramebuffer 16777319 11184880).dst.x = -1 := by
  have h : DrawFramebuffer 16777319 11184880
      = { scale := 279622, dst := { x := 0, y := 0, w := 16777320, h := 11184880 } } := by
    decide!
  rw [h]
  exact ⟨rfl, by decide, by decide, by decide, by decide⟩

/-- C9 (amended): for every output size with `60 <= outputW < 2 ^ 24` and
`40 <= outputH < 2 ^ 24`, the destination rectangle of `DrawFramebuffer` lies
inside the output surface and is centred up to one pixel: on each axis the
offset is `>= 0`, offset plus extent is `<= output`, and the trailing margin
minus the leading margin is 0 or 1; a 301 x 205 output gives scale 5 and the
rectangle 300 x 200 at offsets `(0, 2)`. -/
theorem C9_destination_centred (w h : Int) (hw : (SCREEN_WIDTH : Int) ≤ w)
    (hh : (SCREEN_HEIGHT : Int) ≤ h) (hw24 : w < 2 ^ 24) (hh24 : h < 2 ^ 24) :
    (0 ≤ (DrawFramebuffer w h).dst.x ∧
      (DrawFramebuffer w h).dst.x + (DrawFramebuffer w h).dst.w ≤ w ∧
      ((w - (DrawFramebuffer w h).dst.w - (DrawFramebuffer w h).dst.x)
          - (DrawFramebuffer w h).dst.x = 0 ∨
        (w - (DrawFramebuffer w h).dst.w - (DrawFramebuffer w h).dst.x)
          - (DrawFramebuffer w h).dst.x = 1)) ∧
    (0 ≤ (DrawFramebuffer w h).dst.y ∧
      (DrawFramebuffer w h).dst.y + (DrawFramebuffer w h).dst.h ≤ h ∧
      ((h - (DrawFramebuffer w h).dst.h - (DrawFramebuffer w h).dst.y)
          - (DrawFramebuffer w h).dst.y = 0 ∨
        (h - (DrawFramebuffer w h).dst.h - (DrawFramebuffer w h).dst.y)
          - (DrawFramebuffer w h).dst.y = 1)) ∧
    DrawFramebuffer 301 205 = { scale := 5, dst := { x := 0, y := 2, w := 300, h := 200 } } := by
  have ew : ((SCREEN_WIDTH : Nat) : Int) = 60 := by decide
  have eh : ((SCREEN_HEIGHT : Nat) : Int) = 40 := by decide
  rw [ew] at hw
  rw [eh] at hh
  have hs := DrawFramebuffer_scale w h (by omega) hw24 (by omega) hh24
  have hd := DrawFramebuffer_dst w h
  have h1 : 60 * (DrawFramebuffer w h).scale ≤ w := by rw [hs]; omega
  have h2 : 40 * (DrawFramebuffer w h).scale ≤ h := by rw [hs]; omega
  have hx := tdiv_two_of_nonneg (w - 60 * (DrawFramebuffer w h).scale) (by omega)
  have hy := tdiv_two_of_nonneg (h - 40 * (DrawFramebuffer w h).scale) (by omega)
  rw [hd]
  simp only [hx, hy]
  refine ⟨⟨?_, ?_, ?_⟩, ⟨?_, ?_, ?_⟩, by decide!⟩ <;> omega

/-- C9 at a concrete input: a 1921 x 1080 output. -/
theorem C9_destination_centred_witness :
    0 ≤ (DrawFramebuffer 1921 1080).dst.x ∧
    (DrawFramebuffer 1921 1080).dst.x + (DrawFramebuffer 1921 1080).dst.w ≤ 1921 ∧
    ((1921 - (DrawFramebuffer 1921 1080).dst.w - (DrawFramebuffer 1921 1080).dst.x)
        - (DrawFramebuffer 1921 1080).dst.x = 0 ∨
      (1921 - (DrawFramebuffer 1921 1080).dst.w - (DrawFramebuffer 1921 1080).dst.x)
        - (DrawFramebuffer 1921 1080).dst.x = 1) :=
  (C9_destination_centred 1921 1080 (by decide) (by decide) (by decide) (by decide)).1

/-- C10: for every output size with `1 <= outputW < 60` or `1 <= outputH < 40`,
`DrawFramebuffer` computes scale 1 and a destination rectangle of exactly
60 x 40; on every axis where the surface is smaller than the grid the
rectangle exceeds the surface and the offset is `(output - dest) / 2` rounded
toward zero, hence `<= 0`; a 30 x 20 output gives scale 1 and the rectangle
60 x 40 at offsets `(-15, -10)`. -/
theorem C10_small_surface (w h : Int)
    (hsmall : (1 ≤ w ∧ w < (SCREEN_WIDTH : Int)) ∨ (1 ≤ h ∧ h < (SCREEN_HEIGHT : Int))) :
    (DrawFramebuffer w h).scale = 1 ∧
    (DrawFramebuffer w h).dst.w = 60 ∧
    (DrawFramebuffer w h).dst.h = 40 ∧
    (w < (SCREEN_WIDTH : Int) →
      w < (DrawFramebuffer w h).dst.w ∧
      (DrawFramebuffer w h).dst.x = Int.tdiv (w - (DrawFramebuffer w h).dst.w) 2 ∧
      (DrawFramebuffer w h).dst.x = -(((DrawFramebuffer w h).dst.w - w) / 2) ∧
      (DrawFramebuffer w h).dst.x ≤ 0) ∧
    (h < (SCREEN_HEIGHT : Int) →
      h < (DrawFramebuffer w h).dst.h ∧
      (DrawFramebuffer w h).dst.y = Int.tdiv (h - (DrawFramebuffer w h).dst.h) 2 ∧
      (DrawFramebuffer w h).dst.y = -(((DrawFramebuffer w h).dst.h - h) / 2) ∧
      (DrawFramebuffer w h).dst.y ≤ 0) ∧
    DrawFramebuffer 30 20 = { scale := 1, dst := { x := -15, y := -10, w := 60, h := 40 } } := by
  have ew : ((SCREEN_WIDTH : Nat) : Int) = 60 := by decide
  have eh : ((SCREEN_HEIGHT : Nat) : Int) = 40 := by decide
  rw [ew, eh] at hsmall
  simp only [ew, eh]
  have hs : (DrawFramebuffer w h).scale = 1 := DrawFramebuffer_scale_small w h hsmall
  have hd := DrawFramebuffer_dst w h
  rw [hs] at hd
  rw [hd]
  refine ⟨hs, by norm_num, by norm_num, ?_, ?_, by decide!⟩
  · intro hlt
    have ht := tdiv_two_of_nonpos (w - 60 * 1) (by omega)
    simp only [ht]
    refine ⟨by omega, trivial, ?_, ?_⟩ <;> omega
  · intro hlt
    have ht := tdiv_two_of_nonpos (h - 40 * 1) (by omega)
    simp only [ht]
    refine ⟨by omega, trivial, ?_, ?_⟩ <;> omega

/-- C10 at a concrete input: a 59 x 480 output. -/
theorem C10_small_surface_witness :
    (DrawFramebuffer 59 480).scale = 1 ∧
    (DrawFramebuffer 59 480).dst.w = 60 ∧
    (DrawFramebuffer 59 480).dst.h = 40 :=
  ⟨(C10_small_surface 59 480 (Or.inl (by decide))).1,
   (C10_small_surface 59 480 (Or.inl (by decide))).2.1,
   (C10_small_surface 59 480 (Or.inl (by decide))).2.2.1⟩

/-! ## Packing and unpacking colours -/

/-- For every byte, converting to a double and back returns the byte. -/
theorem DoubleToUint8_Uint8ToDouble_byte :
    ∀ m : Nat, m < 256 → DoubleToUint8 (Uint8ToDouble m) = m := by
  decide!

/-- Converting a byte to a double and back returns the low byte. -/
theorem DoubleToUint8_Uint8ToDouble (v : Nat) : DoubleToUint8 (Uint8ToDouble v) = v % 256 := by
  rw [Uint8ToDouble_mod]
  exact DoubleToUint8_Uint8ToDouble_byte _ (Nat.mod_lt _ (by decide))

/-- For every byte, a further rounding of the double `Uint8ToDouble m` keeps
its numerator and its denominator. -/
theorem roundDouble_Uint8ToDouble_num_den :
    ∀ m : Nat, m < 256 →
      (roundDouble (Uint8ToDouble m)).num = (Uint8ToDouble m).num ∧
      (roundDouble (Uint8ToDouble m)).den = (Uint8ToDouble m).den := by
  decide!

/-- For every byte, the double `Uint8ToDouble m` is unchanged by a further
rounding. -/
theorem roundDouble_Uint8ToDouble_byte (m : Nat) (hm : m < 256) :
    roundDouble (Uint8ToDouble m) = Uint8ToDouble m :=
  Rat.ext (roundDouble_Uint8ToDouble_num_den m hm).1 (roundDouble_Uint8ToDouble_num_den m hm).2

/-- The double `Uint8ToDouble v` is unchanged by a further rounding. -/
theorem roundDouble_Uint8ToDouble (v : Nat) :
    roundDouble (Uint8ToDouble v) = Uint8ToDouble v := by
  rw [Uint8ToDouble_mod]
  exact roundDouble_Uint8ToDouble_byte _ (Nat.mod_lt _ (by decide))

/-- Unpacking and packing a 32-bit colour returns it. -/
theorem PackColor32_FillColor32 (v : Nat) (hv : v < 2 ^ 32) :
    PackColor32 (FillColor32 v) = v := by
  simp only [PackColor32, FillColor32, DoubleToUint8_Uint8ToDouble, and_0xff_eq_mod,
    Nat.shiftRight_eq_div_pow, Nat.shiftLeft_eq]
  norm_num at hv ⊢
  omega

/-- The number 1 is a double. -/
theorem roundDouble_one : roundDouble 1 = 1 := by decide!

/-- The interpolation of two converted bytes at factor 0 is the first. -/
theorem Lerp_zero (v w : Nat) : Lerp (Uint8ToDouble v) (Uint8ToDouble w) 0 = Uint8ToDouble v := by
  unfold Lerp
  rw [sub_zero, roundDouble_one, mul_one, mul_zero, roundDouble_zero, add_zero,
    roundDouble_Uint8ToDouble, roundDouble_Uint8ToDouble]

/-- The interpolation of two converted bytes at factor 1 is the second. -/
theorem Lerp_one (v w : Nat) : Lerp (Uint8ToDouble v) (Uint8ToDouble w) 1 = Uint8ToDouble w := by
  unfold Lerp
  rw [sub_self, roundDouble_zero, mul_zero, roundDouble_zero, zero_add, mul_one,
    roundDouble_Uint8ToDouble, roundDouble_Uint8ToDouble]

/-- C17: in exact arithmetic, unpacking then packing is the identity on every
32-bit colour, `PackColor32 (FillColor32 v) = v`; hence `ARGBLerp a b 0 = a`
and `ARGBLerp a b 1 = b` for all 32-bit colours `a` and `b`. The same holds in
the double arithmetic of the code, which is what is proved. -/
theorem C17_pack_unpack_identity (a b : Nat) (ha : a < 2 ^ 32) (hb : b < 2 ^ 32) :
    PackColor32 (FillColor32 a) = a ∧ PackColor32 (FillColor32 b) = b ∧
    ARGBLerp a b 0 = a ∧ ARGBLerp a b 1 = b := by
  have h0 : ARGBLerp a b 0 = PackColor32 (FillColor32 a) := by
    simp only [ARGBLerp, FillColor32, Lerp_zero]
  have h1 : ARGBLerp a b 1 = PackColor32 (FillColor32 b) := by
    simp only [ARGBLerp, FillColor32, Lerp_one]
  rw [h0, h1]
  exact ⟨PackColor32_FillColor32 a ha, PackColor32_FillColor32 b hb,
    PackColor32_FillColor32 a ha, PackColor32_FillColor32 b hb⟩

/-- C17 at a concrete input: the two endpoint colours of the table. -/
theorem C17_pack_unpack_identity_witness :
    PackColor32 (FillColor32 LOCOLOR) = LOCOLOR ∧ PackColor32 (FillColor32 HICOLOR) = HICOLOR ∧
    ARGBLerp LOCOLOR HICOLOR 0 = LOCOLOR ∧ ARGBLerp LOCOLOR HICOLOR 1 = HICOLOR :=
  C17_pack_unpack_identity LOCOLOR HICOLOR (by decide) (by decide)

/-! ## The colour table: the channel formula -/

/-- For byte channels the packing with `|||` agrees with the sum that
`PackColor32` computes. -/
theorem pack_or_eq_add (a r g b : Nat) (hr : r < 256) (hg : g < 256) (hb : b < 256) :
    (a <<< 24) ||| (r <<< 16) ||| (g <<< 8) ||| b = b + (g <<< 8) + (r <<< 16) + (a <<< 24) := by
  have h1 : 2 ^ 24 * a + r <<< 16 = 2 ^ 24 * a ||| r <<< 16 :=
    Nat.mul_add_lt_is_or (by rw [Nat.shiftLeft_eq]; omega) a
  have h2 : 2 ^ 16 * (2 ^ 8 * a + r) + g <<< 8 = 2 ^ 16 * (2 ^ 8 * a + r) ||| g <<< 8 :=
    Nat.mul_add_lt_is_or (by rw [Nat.shiftLeft_eq]; omega) _
  have h3 : 2 ^ 8 * (2 ^ 16 * a + 2 ^ 8 * r + g) + b = 2 ^ 8 * (2 ^ 16 * a + 2 ^ 8 * r + g) ||| b :=
    Nat.mul_add_lt_is_or (by omega) _
  have e1 : a <<< 24 = 2 ^ 24 * a := by rw [Nat.shiftLeft_eq]; ring
  have e2 : 2 ^ 24 * a + r <<< 16 = 2 ^ 16 * (2 ^ 8 * a + r) := by
    rw [Nat.shiftLeft_eq]; ring
  have e3 : 2 ^ 16 * (2 ^ 8 * a + r) + g <<< 8 = 2 ^ 8 * (2 ^ 16 * a + 2 ^ 8 * r + g) := by
    rw [Nat.shiftLeft_eq]; ring
  rw [e1, ← h1, e2, ← h2, e3, ← h3]
  simp only [Nat.shiftLeft_eq]
  ring

/-- The channel formula of the table yields a byte, between the two endpoint
channels when `lo <= hi`. -/
theorem tableChannel_bounds (lo hi i : Nat) (hlh : lo ≤ hi) (hi' : i ≤ 255) :
    lo ≤ tableChannel lo hi i ∧ tableChannel lo hi i ≤ hi := by
  have hsq : i ^ 2 ≤ 65025 := by nlinarith
  unfold tableChannel
  constructor
  · rw [Nat.le_div_iff_mul_le (by norm_num)]
    have : lo * (65025 - i ^ 2) ≤ hi * (65025 - i ^ 2) := Nat.mul_le_mul_right _ hlh
    have e : lo * 65025 = lo * i ^ 2 + lo * (65025 - i ^ 2) := by
      rw [← Nat.mul_add]; congr 1; omega
    omega
  · apply Nat.div_le_of_le_mul
    have : lo * i ^ 2 ≤ hi * i ^ 2 := Nat.mul_le_mul_right _ hlh
    have e : 65025 * hi = hi * i ^ 2 + hi * (65025 - i ^ 2) := by
      rw [← Nat.mul_add, Nat.mul_comm]; congr 1; omega
    omega

/-- The channel formula of the table yields a byte for byte endpoints. -/
theorem tableChannel_le_255 (lo hi i : Nat) (hlo : lo ≤ 255) (hhi : hi ≤ 255) (hi' : i ≤ 255) :
    tableChannel lo hi i ≤ 255 := by
  have hsq : i ^ 2 ≤ 65025 := by nlinarith
  unfold tableChannel
  apply Nat.div_le_of_le_mul
  have h1 : lo * i ^ 2 ≤ 255 * i ^ 2 := Nat.mul_le_mul_right _ hlo
  have h2 : hi * (65025 - i ^ 2) ≤ 255 * (65025 - i ^ 2) := Nat.mul_le_mul_right _ hhi
  omega

/-- The channels of a colour packed from four bytes are those bytes. -/
theorem channels_of_pack (a r g b : Nat) (ha : a ≤ 255) (hr : r ≤ 255) (hg : g ≤ 255)
    (hb : b ≤ 255) :
    redOf ((b + (g <<< 8) + (r <<< 16) + (a <<< 24)) % 2 ^ 32) = r ∧
    greenOf ((b + (g <<< 8) + (r <<< 16) + (a <<< 24)) % 2 ^ 32) = g ∧
    blueOf ((b + (g <<< 8) + (r <<< 16) + (a <<< 24)) % 2 ^ 32) = b ∧
    alphaOf ((b + (g <<< 8) + (r <<< 16) + (a <<< 24)) % 2 ^ 32) = a := by
  simp only [redOf, greenOf, blueOf, alphaOf, and_0xff_eq_mod, Nat.shiftRight_eq_div_pow,
    Nat.shiftLeft_eq]
  norm_num
  omega

/-- For `lo <= hi` the channel formula does not increase with the index. -/
theorem tableChannel_antitone (lo hi i j : Nat) (hlh : lo ≤ hi) (hij : i ≤ j) (hj : j ≤ 255) :
    tableChannel lo hi j ≤ tableChannel lo hi i := by
  have hsqj : j ^ 2 ≤ 65025 := by nlinarith
  have hsq : i ^ 2 ≤ j ^ 2 := Nat.pow_le_pow_left hij 2
  unfold tableChannel
  apply Nat.div_le_div_right
  obtain ⟨d, hd⟩ := Nat.exists_eq_add_of_le hsq
  have e1 : lo * j ^ 2 = lo * i ^ 2 + lo * d := by rw [hd, Nat.mul_add]
  have e2 : hi * (65025 - i ^ 2) = hi * (65025 - j ^ 2) + hi * d := by
    rw [← Nat.mul_add]; congr 1; omega
  have e3 : lo * d ≤ hi * d := Nat.mul_le_mul_right _ hlh
  omega

/-- Every entry of the table, as the double arithmetic yields it. -/
theorem ColorInterpEntry_eq_expected :
    ∀ i : Nat, i < 256 → ColorInterpEntry i = tableExpected i := by
  decide!

/-- The four channels of the colour packed from the channel formulas. -/
theorem tableFormula_channels (i : Nat) (hi : i ≤ 255) :
    redOf (tableFormula i) = tableChannel (redOf LOCOLOR) (redOf HICOLOR) i ∧
    greenOf (tableFormula i) = tableChannel (greenOf LOCOLOR) (greenOf HICOLOR) i ∧
    blueOf (tableFormula i) = tableChannel (blueOf LOCOLOR) (blueOf HICOLOR) i ∧
    alphaOf (tableFormula i) = tableChannel (alphaOf LOCOLOR) (alphaOf HICOLOR) i :=
  channels_of_pack _ _ _ _
    (tableChannel_le_255 _ _ i (by decide) (by decide) hi)
    (tableChannel_le_255 _ _ i (by decide) (by decide) hi)
    (tableChannel_le_255 _ _ i (by decide) (by decide) hi)
    (tableChannel_le_255 _ _ i (by decide) (by decide) hi)

/-- The four channels of entry `i` of the table: the channel formulas, except
the red channel of entry 85, which is 191. -/
theorem ColorInterpEntry_channels (i : Nat) (hi : i ≤ 255) :
    redOf (ColorInterpEntry i)
      = (if i = 85 then 191 else tableChannel (redOf LOCOLOR) (redOf HICOLOR) i) ∧
    greenOf (ColorInterpEntry i) = tableChannel (greenOf LOCOLOR) (greenOf HICOLOR) i ∧
    blueOf (ColorInterpEntry i) = tableChannel (blueOf LOCOLOR) (blueOf HICOLOR) i ∧
    alphaOf (ColorInterpEntry i) = tableChannel (alphaOf LOCOLOR) (alphaOf HICOLOR) i := by
  rw [ColorInterpEntry_eq_expected i (by omega)]
  unfold tableExpected
  by_cases h85 : i = 85
  · subst h85
    decide
  · rw [if_neg h85, if_neg h85]
    exact tableFormula_channels i hi

/-- C12 (as stated, refuted): the red channel of table entry 85 is 191, while
the formula `(lo * i ^ 2 + hi * (65025 - i ^ 2)) / 65025` gives 192 there: the
exact value is the integer 192 and the double arithmetic of the code ends just
below it. -/
theorem C12_entry_85_red_below_formula :
    BuildColorInterpTable[85]? = some 0xffbfc150 ∧
    redOf 0xffbfc150 = 191 ∧
    redOf (ColorInterpEntry 85) = 191 ∧
    (redOf LOCOLOR * 85 ^ 2 + redOf HICOLOR * (65025 - 85 ^ 2)) / 65025 = 192 ∧
    redOf (ColorInterpEntry 85)
      ≠ (redOf LOCOLOR * 85 ^ 2 + redOf HICOLOR * (65025 - 85 ^ 2)) / 65025 := by
  have h : ColorInterpEntry 85 = 0xffbfc150 := by
    rw [ColorInterpEntry_eq_expected 85 (by decide)]; decide
  rw [BuildColorInterpTable_getElem? 85 (by decide), h]
  exact ⟨rfl, by decide, by decide, by decide, by decide⟩

/-- C12 (amended): for every index `i` in `0 .. 255`, each channel (red, green,
blue, alpha) of table entry `i`, as the double arithmetic of the code yields
it, is the floor of `(lo * i ^ 2 + hi * (65025 - i ^ 2)) / 65025`, the
truncated interpolation from the channel `lo` of `LOCOLOR` (factor 0) to the
channel `hi` of `HICOLOR` (factor 1) at the factor `1 - (i / 255) ^ 2`, except
the red channel of entry 85, which is 191, one less than the formula; the entry
is packed as `a << 24 | r << 16 | g << 8 | b`. -/
theorem C12_table_entry_formula (i : Nat) (hi : i ≤ 255) :
    BuildColorInterpTable[i]? = some (ColorInterpEntry i) ∧
    (i ≠ 85 → redOf (ColorInterpEntry i)
      = (redOf LOCOLOR * i ^ 2 + redOf HICOLOR * (65025 - i ^ 2)) / 65025) ∧
    (i = 85 → redOf (ColorInterpEntry i) = 191 ∧
      redOf (ColorInterpEntry i) + 1
        = (redOf LOCOLOR * i ^ 2 + redOf HICOLOR * (65025 - i ^ 2)) / 65025) ∧
    greenOf (ColorInterpEntry i)
      = (greenOf LOCOLOR * i ^ 2 + greenOf HICOLOR * (65025 - i ^ 2)) / 65025 ∧
    blueOf (ColorInterpEntry i)
      = (blueOf LOCOLOR * i ^ 2 + blueOf HICOLOR * (65025 - i ^ 2)) / 65025 ∧
    alphaOf (ColorInterpEntry i)
      = (alphaOf LOCOLOR * i ^ 2 + alphaOf HICOLOR * (65025 - i ^ 2)) / 65025 ∧
    ColorInterpEntry i
      = (alphaOf (ColorInterpEntry i) <<< 24) ||| (redOf (ColorInterpEntry i) <<< 16)
        ||| (greenOf (ColorInterpEntry i) <<< 8) ||| blueOf (ColorInterpEntry i) := by
  obtain ⟨hr, hg, hb, ha⟩ := ColorInterpEntry_channels i hi
  refine ⟨BuildColorInterpTable_getElem? i (by omega), ?_, ?_, hg, hb, ha, ?_⟩
  · intro h85
    rw [hr, if_neg h85]
    rfl
  · intro h85
    rw [hr, if_pos h85]
    subst h85
    exact ⟨rfl, by decide⟩
  · by_cases h85 : i = 85
    · subst h85
      rw [ColorInterpEntry_eq_expected 85 (by decide)]
      decide
    · have hR := tableChannel_le_255 (redOf LOCOLOR) (redOf HICOLOR) i (by decide) (by decide) hi
      have hG := tableChannel_le_255 (greenOf LOCOLOR) (greenOf HICOLOR) i (by decide)
        (by decide) hi
      have hB := tableChannel_le_255 (blueOf LOCOLOR) (blueOf HICOLOR) i (by decide)
        (by decide) hi
      have hA := tableChannel_le_255 (alphaOf LOCOLOR) (alphaOf HICOLOR) i (by decide)
        (by decide) hi
      rw [hr, if_neg h85, hg, hb, ha, pack_or_eq_add _ _ _ _ (by omega) (by omega) (by omega)]
      have he := ColorInterpEntry_eq_expected i (by omega)
      unfold tableExpected at he
      rw [if_neg h85] at he
      rw [he]
      unfold tableFormula
      apply Nat.mod_eq_of_lt
      simp only [Nat.shiftLeft_eq]
      norm_num
      omega

/-- C12 at a concrete input: entry 128 of the table. -/
theorem C12_table_entry_formula_witness :
    redOf (ColorInterpEntry 128)
      = (redOf LOCOLOR * 128 ^ 2 + redOf HICOLOR * (65025 - 128 ^ 2)) / 65025 :=
  (C12_table_entry_formula 128 (by decide)).2.1 (by decide)

/-- C16: for all indices `i <= j` in `0 .. 255` and each of the four channels,
the channel of table entry `i`, as the double arithmetic of the code yields it,
is greater than or equal to the channel of table entry `j`; every channel of every entry lies between the
channel of `LOCOLOR` and the channel of `HICOLOR`, and the alpha channel of
every entry is `0xff`. -/
theorem C16_table_channels_antitone (i j : Nat) (hij : i ≤ j) (hj : j ≤ 255) :
    BuildColorInterpTable[i]? = some (ColorInterpEntry i) ∧
    BuildColorInterpTable[j]? = some (ColorInterpEntry j) ∧
    (redOf (ColorInterpEntry j) ≤ redOf (ColorInterpEntry i) ∧
      greenOf (ColorInterpEntry j) ≤ greenOf (ColorInterpEntry i) ∧
      blueOf (ColorInterpEntry j) ≤ blueOf (ColorInterpEntry i) ∧
      alphaOf (ColorInterpEntry j) ≤ alphaOf (ColorInterpEntry i)) ∧
    (redOf LOCOLOR ≤ redOf (ColorInterpEntry i) ∧
      redOf (ColorInterpEntry i) ≤ redOf HICOLOR) ∧
    (greenOf LOCOLOR ≤ greenOf (ColorInterpEntry i) ∧
      greenOf (ColorInterpEntry i) ≤ greenOf HICOLOR) ∧
    (blueOf LOCOLOR ≤ blueOf (ColorInterpEntry i) ∧
      blueOf (ColorInterpEntry i) ≤ blueOf HICOLOR) ∧
    (alphaOf LOCOLOR ≤ alphaOf (ColorInterpEntry i) ∧
      alphaOf (ColorInterpEntry i) ≤ alphaOf HICOLOR) ∧
    alphaOf (ColorInterpEntry i) = 0xff := by
  have hi : i ≤ 255 := le_trans hij hj
  obtain ⟨hri, hgi, hbi, hai⟩ := ColorInterpEntry_channels i hi
  obtain ⟨hrj, hgj, hbj, haj⟩ := ColorInterpEntry_channels j hj
  have hr : redOf LOCOLOR ≤ redOf HICOLOR := by decide
  have hg : greenOf LOCOLOR ≤ greenOf HICOLOR := by decide
  have hb : blueOf LOCOLOR ≤ blueOf HICOLOR := by decide
  have ha : alphaOf LOCOLOR ≤ alphaOf HICOLOR := by decide
  have hal : alphaOf LOCOLOR = 0xff := by decide
  have hah : alphaOf HICOLOR = 0xff := by decide
  have hlo : redOf LOCOLOR = 64 := by decide
  have hhi : redOf HICOLOR = 208 := by decide
  have hA := tableChannel_bounds (alphaOf LOCOLOR) (alphaOf HICOLOR) i ha hi
  have hRi := tableChannel_bounds (redOf LOCOLOR) (redOf HICOLOR) i hr hi
  have h84 : tableChannel (redOf LOCOLOR) (redOf HICOLOR) 84 = 192 := by decide
  have h86 : tableChannel (redOf LOCOLOR) (redOf HICOLOR) 86 = 191 := by decide
  -- the red channel, with its exception at entry 85
  have hred : (if j = 85 then 191 else tableChannel (redOf LOCOLOR) (redOf HICOLOR) j)
      ≤ (if i = 85 then 191 else tableChannel (redOf LOCOLOR) (redOf HICOLOR) i) := by
    by_cases hi85 : i = 85
    · by_cases hj85 : j = 85
      · rw [if_pos hi85, if_pos hj85]
      · rw [if_pos hi85, if_neg hj85]
        have := tableChannel_antitone (redOf LOCOLOR) (redOf HICOLOR) 86 j hr (by omega) hj
        omega
    · by_cases hj85 : j = 85
      · rw [if_neg hi85, if_pos hj85]
        have := tableChannel_antitone (redOf LOCOLOR) (redOf HICOLOR) i 84 hr (by omega)
          (by decide)
        omega
      · rw [if_neg hi85, if_neg hj85]
        exact tableChannel_antitone _ _ i j hr hij hj
  have hredb : redOf LOCOLOR
        ≤ (if i = 85 then 191 else tableChannel (redOf LOCOLOR) (redOf HICOLOR) i) ∧
      (if i = 85 then 191 else tableChannel (redOf LOCOLOR) (redOf HICOLOR) i)
        ≤ redOf HICOLOR := by
    by_cases hi85 : i = 85
    · rw [if_pos hi85, hlo, hhi]; omega
    · rw [if_neg hi85]; exact hRi
  rw [hri, hgi, hbi, hai, hrj, hgj, hbj, haj]
  refine ⟨BuildColorInterpTable_getElem? i (by omega), BuildColorInterpTable_getElem? j (by omega),
    ⟨hred, tableChannel_antitone _ _ i j hg hij hj,
      tableChannel_antitone _ _ i j hb hij hj, tableChannel_antitone _ _ i j ha hij hj⟩,
    hredb, tableChannel_bounds _ _ i hg hi,
    tableChannel_bounds _ _ i hb hi, hA, ?_⟩
  rw [hal, hah] at hA
  rw [hal, hah]
  omega

/-- C16 at a concrete input: entries 10 and 200 of the table. -/
theorem C16_table_channels_antitone_witness :
    redOf (ColorInterpEntry 200) ≤ redOf (ColorInterpEntry 10) ∧
    greenOf (ColorInterpEntry 200) ≤ greenOf (ColorInterpEntry 10) ∧
    blueOf (ColorInterpEntry 200) ≤ blueOf (ColorInterpEntry 10) ∧
    alphaOf (ColorInterpEntry 200) ≤ alphaOf (ColorInterpEntry 10) :=
  (C16_table_channels_antitone 10 200 (by decide) (by decide)).2.2.1

/-! ## Composition of the framebuffer -/

/-- The buffer written by `UpdateDisplayFramebuffer`, pixel by pixel. -/
theorem UpdateDisplayFramebuffer_pixelData (enc : Nat → Nat → Nat → Nat → Nat)
    (table panel : List Nat) :
    (UpdateDisplayFramebuffer enc table panel).pixelData
      = (List.range g_LCDPanelSize).map (ComposePixel enc table panel) := by
  simp only [UpdateDisplayFramebuffer]

/-- The buffer written by `UpdateDisplayFramebuffer` has `g_LCDPanelSize`
pixels. -/
theorem UpdateDisplayFramebuffer_length (enc : Nat → Nat → Nat → Nat → Nat)
    (table panel : List Nat) :
    (UpdateDisplayFramebuffer enc table panel).pixelData.length = g_LCDPanelSize := by
  simp [UpdateDisplayFramebuffer]

/-- Pixel `i` of the buffer is the result of the loop body at `i`. -/
theorem UpdateDisplayFramebuffer_getElem? (enc : Nat → Nat → Nat → Nat → Nat)
    (table panel : List Nat) (i : Nat) (hi : i < g_LCDPanelSize) :
    (UpdateDisplayFramebuffer enc table panel).pixelData[i]?
      = some (ComposePixel enc table panel i) := by
  simp [UpdateDisplayFramebuffer, List.getElem?_range hi]

/-- The loop body at a pixel whose cell holds the byte `cell`, with entry `e`
of the table at `cell`, is the encoding of `e`. -/
theorem ComposePixel_eq (enc : Nat → Nat → Nat → Nat → Nat) (table panel : List Nat)
    (i cell e : Nat) (hcell : panel[i]? = some cell) (hlt : cell < 256)
    (he : table[cell]? = some e) :
    ComposePixel enc table panel i = encodeColor enc e := by
  have hmod : cell % 256 = cell := Nat.mod_eq_of_lt hlt
  simp only [ComposePixel, encodeColor, redOf, greenOf, blueOf, alphaOf,
    List.getD_eq_getElem?_getD, hcell, Option.getD_some, hmod, he]

/-- Entry 0 of the table is `HICOLOR`. -/
theorem BuildColorInterpTable_zero : BuildColorInterpTable[0]? = some HICOLOR := by
  rw [BuildColorInterpTable_getElem? 0 (by decide)]; decide!

/-- Entry 255 of the table is `LOCOLOR`. -/
theorem BuildColorInterpTable_255 : BuildColorInterpTable[255]? = some LOCOLOR := by
  rw [BuildColorInterpTable_getElem? 255 (by decide)]; decide!

/-- Composing a panel whose cells all hold the byte `cell` yields a buffer whose
pixels all are the encoding of the table entry at `cell`. -/
theorem UpdateDisplayFramebuffer_replicate (enc : Nat → Nat → Nat → Nat → Nat)
    (table : List Nat) (cell e : Nat) (hlt : cell < 256) (he : table[cell]? = some e) :
    ∀ p ∈ (UpdateDisplayFramebuffer enc table (List.replicate g_LCDPanelSize cell)).pixelData,
      p = encodeColor enc e := by
  intro p hp
  rw [UpdateDisplayFramebuffer_pixelData] at hp
  obtain ⟨i, hi, rfl⟩ := List.mem_map.mp hp
  have hi := List.mem_range.mp hi
  exact ComposePixel_eq enc table _ i cell e (List.getElem?_replicate_of_lt hi) hlt he

/-- C11 (as stated, refuted): with the `ARGB8888` encoder, the first pixel of
the composition of the all-zero grid is `0xffd0d058`, which is not the
encoding `0xff405010` of `LOCOLOR`, and the first pixel of the composition of
the all-255 grid is `0xff405010`, which is not the encoding `0xffd0d058` of
`HICOLOR`. -/
theorem C11_uniform_grids_not_as_stated :
    (UpdateDisplayFramebuffer MapRGBA_ARGB8888 BuildColorInterpTable
        (List.replicate g_LCDPanelSize 0)).pixelData[0]? = some 0xffd0d058 ∧
    encodeColor MapRGBA_ARGB8888 LOCOLOR = 0xff405010 ∧
    (UpdateDisplayFramebuffer MapRGBA_ARGB8888 BuildColorInterpTable
        (List.replicate g_LCDPanelSize 255)).pixelData[0]? = some 0xff405010 ∧
    encodeColor MapRGBA_ARGB8888 HICOLOR = 0xffd0d058 ∧
    ¬ (∀ p ∈ (UpdateDisplayFramebuffer MapRGBA_ARGB8888 BuildColorInterpTable
          (List.replicate g_LCDPanelSize 0)).pixelData,
        p = encodeColor MapRGBA_ARGB8888 LOCOLOR) ∧
    ¬ (∀ p ∈ (UpdateDisplayFramebuffer MapRGBA_ARGB8888 BuildColorInterpTable
          (List.replicate g_LCDPanelSize 255)).pixelData,
        p = encodeColor MapRGBA_ARGB8888 HICOLOR) := by
  have hlo : encodeColor MapRGBA_ARGB8888 LOCOLOR = 0xff405010 := by decide
  have hhi : encodeColor MapRGBA_ARGB8888 HICOLOR = 0xffd0d058 := by decide
  have h0 : (UpdateDisplayFramebuffer MapRGBA_ARGB8888 BuildColorInterpTable
      (List.replicate g_LCDPanelSize 0)).pixelData[0]? = some 0xffd0d058 := by
    rw [UpdateDisplayFramebuffer_getElem? _ _ _ 0 (by decide),
      ComposePixel_eq MapRGBA_ARGB8888 BuildColorInterpTable _ 0 0 HICOLOR
        (List.getElem?_replicate_of_lt (by decide)) (by decide) BuildColorInterpTable_zero]
    decide
  have h255 : (UpdateDisplayFramebuffer MapRGBA_ARGB8888 BuildColorInterpTable
      (List.replicate g_LCDPanelSize 255)).pixelData[0]? = some 0xff405010 := by
    rw [UpdateDisplayFramebuffer_getElem? _ _ _ 0 (by decide),
      ComposePixel_eq MapRGBA_ARGB8888 BuildColorInterpTable _ 0 255 LOCOLOR
        (List.getElem?_replicate_of_lt (by decide)) (by decide) BuildColorInterpTable_255]
    decide
  refine ⟨h0, hlo, h255, hhi, ?_, ?_⟩
  · intro hall
    have h := hall _ (List.getElem?_mem h0)
    rw [hlo] at h
    exact absurd h (by decide)
  · intro hall
    have h := hall _ (List.getElem?_mem h255)
    rw [hhi] at h
    exact absurd h (by decide)

/-- C11 (amended): for every destination-format encoder, composing the grid
whose cells are all 0 yields a buffer of `g_LCDPanelSize` pixels, each the
encoding of the channels of the high endpoint colour `HICOLOR`, and composing
the grid whose cells are all 255 yields a buffer of `g_LCDPanelSize` pixels,
each the encoding of the channels of the low endpoint colour `LOCOLOR`. -/
theorem C11_uniform_grids (enc : Nat → Nat → Nat → Nat → Nat) :
    ((UpdateDisplayFramebuffer enc BuildColorInterpTable
        (List.replicate g_LCDPanelSize 0)).pixelData.length = g_LCDPanelSize ∧
      ∀ p ∈ (UpdateDisplayFramebuffer enc BuildColorInterpTable
          (List.replicate g_LCDPanelSize 0)).pixelData,
        p = enc (redOf HICOLOR) (greenOf HICOLOR) (blueOf HICOLOR) (alphaOf HICOLOR)) ∧
    ((UpdateDisplayFramebuffer enc BuildColorInterpTable
        (List.replicate g_LCDPanelSize 255)).pixelData.length = g_LCDPanelSize ∧
      ∀ p ∈ (UpdateDisplayFramebuffer enc BuildColorInterpTable
          (List.replicate g_LCDPanelSize 255)).pixelData,
        p = enc (redOf LOCOLOR) (greenOf LOCOLOR) (blueOf LOCOLOR) (alphaOf LOCOLOR)) :=
  ⟨⟨UpdateDisplayFramebuffer_length _ _ _,
      UpdateDisplayFramebuffer_replicate enc BuildColorInterpTable 0 HICOLOR (by decide)
        BuildColorInterpTable_zero⟩,
    ⟨UpdateDisplayFramebuffer_length _ _ _,
      UpdateDisplayFramebuffer_replicate enc BuildColorInterpTable 255 LOCOLOR (by decide)
        BuildColorInterpTable_255⟩⟩

/-- C13: for every well-formed grid and every destination-format encoder, the
buffer written by `UpdateDisplayFramebuffer` has exactly
`SCREEN_WIDTH * SCREEN_HEIGHT` pixels, pixel `i` is the encoder applied to the
channels `r` (bits 16-23), `g` (bits 8-15), `b` (bits 0-7) and `a` (bits 24-31)
of the table entry at the value of cell `i`, pixel `i` is the same for any two
grids that agree at cell `i`, and the grid is left unchanged. -/
theorem C13_compose_pixelwise (enc : Nat → Nat → Nat → Nat → Nat) (panel : List Nat)
    (hwf : PanelWF panel) :
    (UpdateDisplayFramebuffer enc BuildColorInterpTable panel).pixelData.length
      = SCREEN_WIDTH * SCREEN_HEIGHT ∧
    (∀ i : Nat, i < SCREEN_WIDTH * SCREEN_HEIGHT →
      ∃ cell e : Nat, panel[i]? = some cell ∧ BuildColorInterpTable[cell]? = some e ∧
        (UpdateDisplayFramebuffer enc BuildColorInterpTable panel).pixelData[i]?
          = some (enc ((e >>> 16) &&& 0xff) ((e >>> 8) &&& 0xff) (e &&& 0xff)
              ((e >>> 24) &&& 0xff))) ∧
    (∀ (other : List Nat) (i : Nat), other[i]? = panel[i]? →
      (UpdateDisplayFramebuffer enc BuildColorInterpTable other).pixelData[i]?
        = (UpdateDisplayFramebuffer enc BuildColorInterpTable panel).pixelData[i]?) ∧
    (UpdateDisplayFramebuffer enc BuildColorInterpTable panel).g_LCDPanel = panel := by
  refine ⟨UpdateDisplayFramebuffer_length _ _ _, ?_, ?_, rfl⟩
  · intro i hi
    have hlen : i < panel.length := by rw [hwf.1]; exact hi
    have hcell : panel[i]? = some panel[i] := List.getElem?_eq_getElem hlen
    have hlt : panel[i] < 256 := hwf.2 _ (List.getElem_mem hlen)
    refine ⟨panel[i], ColorInterpEntry panel[i], hcell,
      BuildColorInterpTable_getElem? _ hlt, ?_⟩
    rw [UpdateDisplayFramebuffer_getElem? _ _ _ i hi,
      ComposePixel_eq enc BuildColorInterpTable panel i _ _ hcell hlt
        (BuildColorInterpTable_getElem? _ hlt)]
    rfl
  · intro other i h
    by_cases hi : i < g_LCDPanelSize
    · rw [UpdateDisplayFramebuffer_getElem? _ _ _ i hi,
        UpdateDisplayFramebuffer_getElem? _ _ _ i hi]
      simp only [ComposePixel, List.getD_eq_getElem?_getD, h]
    · have h1 : (UpdateDisplayFramebuffer enc BuildColorInterpTable other).pixelData.length ≤ i := by
        rw [UpdateDisplayFramebuffer_length]; omega
      have h2 : (UpdateDisplayFramebuffer enc BuildColorInterpTable panel).pixelData.length ≤ i := by
        rw [UpdateDisplayFramebuffer_length]; omega
      rw [List.getElem?_eq_none h1, List.getElem?_eq_none h2]

/-- C13 at a concrete input: the all-zero grid and the `ARGB8888` encoder. -/
theorem C13_compose_pixelwise_witness :
    (UpdateDisplayFramebuffer MapRGBA_ARGB8888 BuildColorInterpTable
      (List.replicate g_LCDPanelSize 0)).pixelData.length = SCREEN_WIDTH * SCREEN_HEIGHT :=
  (C13_compose_pixelwise MapRGBA_ARGB8888 (List.replicate g_LCDPanelSize 0)
    PanelWF_replicate).1

/-! ## The decay law -/

/-- The floor of a natural number minus a rational is the number minus the
ceiling of the rational. -/
theorem floor_natCast_sub (b : Nat) (x : ℚ) : ⌊(b : ℚ) - x⌋ = (b : Int) - ⌈x⌉ := by
  rw [Int.floor_eq_iff]
  have h1 := Int.le_ceil x
  have h2 := Int.ceil_lt_add_one x
  push_cast
  constructor <;> linarith

/-- The decay formula `max 0 (b - ceil (2550 * dt))` is the floor of the exact
decayed value `max 0 (b - 2550 * dt)`. -/
theorem decay_formula_eq_floor (b : Nat) (dt : ℚ) :
    max 0 ((b : Int) - ⌈2550 * dt⌉) = ⌊max (0 : ℚ) ((b : ℚ) - 2550 * dt)⌋ := by
  rw [(Int.floor_mono (α := ℚ)).map_max, floor_natCast_sub, Int.floor_zero]

/-- Two rationals less than 1 apart have floors at most 1 apart. -/
theorem floor_near (p x : ℚ) (h1 : x - 1 / 2 ≤ p) (h2 : p ≤ x + 1 / 2) :
    ⌊x⌋ - 1 ≤ ⌊p⌋ ∧ ⌊p⌋ ≤ ⌊x⌋ + 1 := by
  constructor
  · have : ⌊x - 1⌋ ≤ ⌊p⌋ := Int.floor_mono (by linarith)
    rw [Int.floor_sub_one] at this
    exact this
  · have : ⌊p⌋ ≤ ⌊x + 1⌋ := Int.floor_mono (by linarith)
    rw [Int.floor_add_one] at this
    exact this

/-- An elapsed time of 0 leaves a byte cell unchanged. -/
theorem LCDDecayCell_zero_elapsed (b : Nat) (hb : b ≤ 255) : LCDDecayCell 0 b = b := by
  have hrt := DoubleToUint8_Uint8ToDouble b
  rw [Nat.mod_eq_of_lt (by omega)] at hrt
  unfold LCDDecayCell
  simp only
  rw [mul_zero, roundDouble_zero, sub_zero, roundDouble_Uint8ToDouble, fmax_zero]
  split_ifs with h
  · exact hrt
  · have h0 : Uint8ToDouble b = 0 := le_antisymm (not_lt.mp h) (Uint8ToDouble_nonneg b)
    rw [h0] at hrt
    rw [hrt]

/-- The decay of a byte cell is within 1 of the decay formula
`max 0 (b - ceil (2550 * dt))`. -/
theorem LCDDecayCell_near_formula (b : Nat) (hb : b ≤ 255) (dt : ℚ) (hdt : 0 ≤ dt) :
    max 0 ((b : Int) - ⌈2550 * dt⌉) - 1 ≤ ((LCDDecayCell dt b : Nat) : Int) ∧
      ((LCDDecayCell dt b : Nat) : Int) ≤ max 0 ((b : Int) - ⌈2550 * dt⌉) + 1 := by
  have hrate : ((LCD_DECAY_RATE : Nat) : ℚ) = 10 := by
    unfold LCD_DECAY_RATE; norm_num
  have hbQ : (b : ℚ) ≤ 255 := by exact_mod_cast hb
  have hb0 : (0 : ℚ) ≤ (b : ℚ) := by positivity
  have hmask : b &&& 0xff = b := by rw [and_0xff_eq_mod]; exact Nat.mod_eq_of_lt (by omega)
  have hq0 : (0 : ℚ) ≤ (b : ℚ) / 255 := by positivity
  have hq1 : (b : ℚ) / 255 ≤ 1 := by rw [div_le_one (by norm_num)]; exact hbQ
  have hu : (b : ℚ) / 255 - (1 / 2 ^ 53 + 1 / 2 ^ 100) ≤ Uint8ToDouble b ∧
      Uint8ToDouble b ≤ (b : ℚ) / 255 + (1 / 2 ^ 53 + 1 / 2 ^ 100) := by
    have h := roundDouble_bounds ((b : ℚ) / 255) 1 (by rw [abs_of_nonneg hq0]; exact hq1)
    unfold Uint8ToDouble
    rw [hmask]
    exact h
  have hu1 := Uint8ToDouble_le_one b
  have hy0 : (0 : ℚ) ≤ 10 * dt := by positivity
  rw [decay_formula_eq_floor]
  by_cases hy : 10 * dt ≤ 2
  · -- the moderate case: every intermediate value is small
    have ht := roundDouble_bounds (10 * dt) 2 (by rw [abs_of_nonneg hy0]; exact hy)
    have hz : |Uint8ToDouble b - roundDouble (10 * dt)| ≤ 4 := by
      rw [abs_le]
      have hc : (2 : ℚ) / 2 ^ 53 + 1 / 2 ^ 100 ≤ 1 := by norm_num
      have := Uint8ToDouble_nonneg b
      constructor <;> linarith [ht.1, ht.2]
    have hw := roundDouble_bounds (Uint8ToDouble b - roundDouble (10 * dt)) 4 hz
    -- the exact decayed brightness and its double
    have hY1 : (b : ℚ) / 255 - 10 * dt ≤ 1 := by linarith
    have hc1 : (1 : ℚ) / 2 ^ 53 + 1 / 2 ^ 100 + (2 / 2 ^ 53 + 1 / 2 ^ 100)
        + (4 / 2 ^ 53 + 1 / 2 ^ 100) ≤ 1 / 2 ^ 50 := by norm_num
    have hwlo : (b : ℚ) / 255 - 10 * dt - 1 / 2 ^ 50
        ≤ roundDouble (Uint8ToDouble b - roundDouble (10 * dt)) := by
      linarith [hw.1, hu.1, ht.2]
    have hwhi : roundDouble (Uint8ToDouble b - roundDouble (10 * dt))
        ≤ (b : ℚ) / 255 - 10 * dt + 1 / 2 ^ 50 := by
      linarith [hw.2, hu.2, ht.1]
    have hM0 : (0 : ℚ) ≤ max 0 ((b : ℚ) / 255 - 10 * dt) := le_max_left _ _
    have hM1 : max 0 ((b : ℚ) / 255 - 10 * dt) ≤ 1 := max_le zero_le_one hY1
    have hMge : (b : ℚ) / 255 - 10 * dt ≤ max 0 ((b : ℚ) / 255 - 10 * dt) := le_max_right _ _
    have hMcases : max 0 ((b : ℚ) / 255 - 10 * dt) = 0
        ∨ max 0 ((b : ℚ) / 255 - 10 * dt) = (b : ℚ) / 255 - 10 * dt := by
      rcases le_total ((b : ℚ) / 255 - 10 * dt) 0 with h | h
      · exact Or.inl (max_eq_left h)
      · exact Or.inr (max_eq_right h)
    have hv : max 0 ((b : ℚ) / 255 - 10 * dt) - 1 / 2 ^ 50
          ≤ fmax 0 (roundDouble (Uint8ToDouble b - roundDouble (10 * dt))) ∧
        fmax 0 (roundDouble (Uint8ToDouble b - roundDouble (10 * dt)))
          ≤ max 0 ((b : ℚ) / 255 - 10 * dt) + 1 / 2 ^ 50 := by
      rw [fmax_zero]
      have hpos : (0 : ℚ) < 1 / 2 ^ 50 := by norm_num
      split_ifs with h0
      · rcases hMcases with hm | hm <;> rw [hm] <;> constructor <;> linarith
      · have h0' := not_lt.mp h0
        rcases hMcases with hm | hm <;> rw [hm] <;> constructor <;> linarith
    have hv0 : 0 ≤ fmax 0 (roundDouble (Uint8ToDouble b - roundDouble (10 * dt))) := by
      rw [fmax_zero]
      split_ifs with h0
      · exact le_of_lt h0
      · exact le_rfl
    have hc : max 0 ((b : ℚ) / 255 - 10 * dt) - 1 / 2 ^ 50
          ≤ SDL_clamp (fmax 0 (roundDouble (Uint8ToDouble b - roundDouble (10 * dt)))) 0 1 ∧
        SDL_clamp (fmax 0 (roundDouble (Uint8ToDouble b - roundDouble (10 * dt)))) 0 1
          ≤ max 0 ((b : ℚ) / 255 - 10 * dt) + 1 / 2 ^ 50 := by
      have hpos : (0 : ℚ) < 1 / 2 ^ 50 := by norm_num
      unfold SDL_clamp
      split_ifs with h1 h2
      · linarith
      · constructor <;> linarith [hv.1, hv.2]
      · exact hv
    obtain ⟨c0, c1⟩ := SDL_clamp_unit_mem
      (fmax 0 (roundDouble (Uint8ToDouble b - roundDouble (10 * dt))))
    have hx0 : (0 : ℚ) ≤ 255 * SDL_clamp
        (fmax 0 (roundDouble (Uint8ToDouble b - roundDouble (10 * dt)))) 0 1 := by positivity
    have hp := roundDouble_bounds (255 * SDL_clamp
      (fmax 0 (roundDouble (Uint8ToDouble b - roundDouble (10 * dt)))) 0 1) 255
      (by rw [abs_of_nonneg hx0]; linarith)
    have hX : max (0 : ℚ) ((b : ℚ) - 2550 * dt) = 255 * max 0 ((b : ℚ) / 255 - 10 * dt) := by
      rw [mul_max_of_nonneg _ _ (by norm_num : (0 : ℚ) ≤ 255), mul_zero]
      congr 1
      field_simp
      ring
    have hc2 : (255 : ℚ) * (1 / 2 ^ 50) + (255 / 2 ^ 53 + 1 / 2 ^ 100) ≤ 1 / 2 := by norm_num
    have hnear := floor_near
      (roundDouble (255 * SDL_clamp
        (fmax 0 (roundDouble (Uint8ToDouble b - roundDouble (10 * dt)))) 0 1))
      (max (0 : ℚ) ((b : ℚ) - 2550 * dt))
      (by rw [hX]; linarith [hp.1, hc.1])
      (by rw [hX]; linarith [hp.2, hc.2])
    have he := DoubleToUint8_eq_floor
      (fmax 0 (roundDouble (Uint8ToDouble b - roundDouble (10 * dt))))
    unfold LCDDecayCell
    simp only [hrate]
    rw [he]
    exact hnear
  · -- the elapsed time is so long that the cell is cleared
    have hy' : 2 < 10 * dt := not_le.mp hy
    have hz : LCDDecayCell dt b = 0 := LCDDecayCell_eq_zero dt (by linarith) b
    have hX : max (0 : ℚ) ((b : ℚ) - 2550 * dt) = 0 := max_eq_left (by linarith)
    rw [hz, hX, Int.floor_zero]
    constructor <;> norm_num

/-- C14 (as stated, refuted): at the elapsed time `2 ^ (-60)` (a double, and
positive) the decay pass leaves the cell 255 unchanged, where the formula
`max 0 (b - ceil (2550 * elapsed))` gives 254 and the claim a strictly lower
cell; at the double nearest to 0.02 the decay pass stores 2 in the cell 53,
where the formula gives 1. -/
theorem C14_decay_not_formula :
    LCDDecayCell (1 / 2 ^ 60) 255 = 255 ∧
    (0 : ℚ) < 1 / 2 ^ 60 ∧
    roundDouble (1 / 2 ^ 60) = 1 / 2 ^ 60 ∧
    max 0 ((255 : Int) - ⌈2550 * (1 / 2 ^ 60 : ℚ)⌉) = 254 ∧
    LCDDecayCell (roundDouble (1 / 50)) 53 = 2 ∧
    max 0 ((53 : Int) - ⌈2550 * roundDouble (1 / 50)⌉) = 1 := by
  refine ⟨by decide!, by norm_num, by decide!, by decide!, by decide!, by decide!⟩

/-- C14 (amended): for every cell value `b` in `0 .. 255` and every elapsed
time `>= 0`, the value that the decay pass of `LCDUpdate` stores, in the double
arithmetic of the code, is within 1 of `max 0 (b - ceil (2550 * elapsed))` and
is at most `b`; an elapsed time of 0 leaves the cell unchanged, and every
elapsed time `>= 1 / 10` sets the cell to 0. -/
theorem C14_decay_law (b : Nat) (hb : b ≤ 255) (dt : ℚ) (hdt : 0 ≤ dt) :
    (max 0 ((b : Int) - ⌈2550 * dt⌉) - 1 ≤ ((LCDDecayCell dt b : Nat) : Int) ∧
      ((LCDDecayCell dt b : Nat) : Int) ≤ max 0 ((b : Int) - ⌈2550 * dt⌉) + 1) ∧
    LCDDecayCell dt b ≤ b ∧
    LCDDecayCell 0 b = b ∧
    (1 / 10 ≤ dt → LCDDecayCell dt b = 0) :=
  ⟨LCDDecayCell_near_formula b hb dt hdt, LCDDecayCell_le dt hdt b,
    LCDDecayCell_zero_elapsed b hb, fun h => LCDDecayCell_eq_zero dt h b⟩

/-- C14 at a concrete input: the cell 200 after a hundredth of a second. -/
theorem C14_decay_law_witness :
    (max 0 ((200 : Int) - ⌈2550 * (1 / 100 : ℚ)⌉) - 1
        ≤ ((LCDDecayCell (1 / 100) 200 : Nat) : Int) ∧
      ((LCDDecayCell (1 / 100) 200 : Nat) : Int)
        ≤ max 0 ((200 : Int) - ⌈2550 * (1 / 100 : ℚ)⌉) + 1) ∧
    LCDDecayCell (1 / 100) 200 ≤ 200 :=
  ⟨(C14_decay_law 200 (by decide) (1 / 100) (by norm_num)).1,
   (C14_decay_law 200 (by decide) (1 / 100) (by norm_num)).2.1⟩

/-! ## The plot index on the right edge -/

/-- With no key held a pen inside the clamp range stays where it is. -/
theorem LCDMovePen_no_key (x y : Int) (hx0 : 0 ≤ x) (hx : x ≤ 60) (hy0 : 0 ≤ y)
    (hy : y ≤ 40) :
    LCDMovePen (keysHeld []) { x := x, y := y } = { x := x, y := y } := by
  have hw : ((SCREEN_WIDTH : Nat) : Int) = 60 := by decide
  have hh : ((SCREEN_HEIGHT : Nat) : Int) = 40 := by decide
  simp only [LCDMovePen, IsKeyDown, keysHeld, hw, hh]
  simp only [List.not_mem_nil, decide_False, Bool.false_eq_true, if_false, add_zero]
  rw [SDL_clamp_int_of_mem x 0 60 hx0 hx, SDL_clamp_int_of_mem y 0 40 hy0 hy]

/-- The offset of the pen `(60, y)` is the offset of the pen `(0, y + 1)`. -/
theorem GetLCDOffset_right_edge (y : Nat) (hy : y ≤ 38) :
    GetLCDOffset 60 (y : Int) = (y + 1) * 60 ∧ GetLCDOffset 0 ((y : Int) + 1) = (y + 1) * 60 := by
  have h1 := GetLCDOffset_eq 60 (y : Int) (by norm_num) (by norm_num) (by omega)
    (by norm_num; omega)
  have h2 := GetLCDOffset_eq 0 ((y : Int) + 1) (by norm_num) (by norm_num) (by omega)
    (by norm_num; omega)
  constructor <;> omega

/-- C15: the plot index is not injective on the clamp range of the pen: for
every `y` with `0 <= y <= 38` the pens `(60, y)` and `(0, y + 1)` have the same
offset `(y + 1) * 60`, the first cell of row `y + 1`, which is inside the
panel; a call of `LCDUpdate` that ends with the pen at `(60, y)` (from
`(59, y)` with RIGHT held) and a call that ends with the pen at `(0, y + 1)`
write 255 to that same cell, and every state that `LCDUpdate` returns with
either pen holds 255 there. -/
theorem C15_right_edge_wraps (y : Nat) (hy : y ≤ 38) (dt : ℚ) (panel : List Nat)
    (hlen : panel.length = g_LCDPanelSize) :
    GetLCDOffset 60 (y : Int) = GetLCDOffset 0 ((y : Int) + 1) ∧
    GetLCDOffset 60 (y : Int) = (y + 1) * SCREEN_WIDTH ∧
    (y + 1) * SCREEN_WIDTH < g_LCDPanelSize ∧
    LCDUpdate dt (keysHeld [SDL_SCANCODE_RIGHT])
        { g_LCDPanel := panel, g_PixelPos := { x := 59, y := (y : Int) } }
      = some { g_LCDPanel := (LCDDecay dt panel).set ((y + 1) * SCREEN_WIDTH) 255
               g_PixelPos := { x := 60, y := (y : Int) } } ∧
    LCDUpdate dt (keysHeld [])
        { g_LCDPanel := panel, g_PixelPos := { x := 0, y := (y : Int) + 1 } }
      = some { g_LCDPanel := (LCDDecay dt panel).set ((y + 1) * SCREEN_WIDTH) 255
               g_PixelPos := { x := 0, y := (y : Int) + 1 } } ∧
    ((LCDDecay dt panel).set ((y + 1) * SCREEN_WIDTH) 255)[(y + 1) * SCREEN_WIDTH]? = some 255 ∧
    ∀ (ks : KeyboardState) (s s' : LCDState), s.g_LCDPanel.length = g_LCDPanelSize →
      LCDUpdate dt ks s = some s' →
      (s'.g_PixelPos = { x := 60, y := (y : Int) } ∨
        s'.g_PixelPos = { x := 0, y := (y : Int) + 1 }) →
      s'.g_LCDPanel[(y + 1) * SCREEN_WIDTH]? = some 255 := by
  have hw : SCREEN_WIDTH = 60 := rfl
  have hsz : g_LCDPanelSize = 2400 := by decide
  obtain ⟨h60, h0⟩ := GetLCDOffset_right_edge y hy
  rw [hw]
  have hset : ((LCDDecay dt panel).set ((y + 1) * 60) 255)[(y + 1) * 60]? = some 255 := by
    apply List.getElem?_set_eq_of_lt
    rw [LCDDecay_length, hlen]
    omega
  refine ⟨by rw [h60, h0], h60, by omega, ?_, ?_, hset, ?_⟩
  · have hm := LCDMovePen_right 59 (y : Int) (by norm_num) (by norm_num) (by omega) (by omega)
    have hm' : LCDMovePen (keysHeld [SDL_SCANCODE_RIGHT]) { x := 59, y := (y : Int) }
        = { x := 60, y := (y : Int) } := by rw [hm]; norm_num
    have hoff : LCDPlotOffset (keysHeld [SDL_SCANCODE_RIGHT])
        ({ g_LCDPanel := panel, g_PixelPos := { x := 59, y := (y : Int) } } : LCDState).g_PixelPos
        = (y + 1) * 60 := by
      simp only [LCDPlotOffset, hm', h60]
    rw [LCDUpdate_of_lt dt _ _ (by rw [hoff]; omega), hoff, hm']
  · have hm := LCDMovePen_no_key 0 ((y : Int) + 1) (by norm_num) (by norm_num) (by omega)
      (by omega)
    have hoff : LCDPlotOffset (keysHeld [])
        ({ g_LCDPanel := panel, g_PixelPos := { x := 0, y := (y : Int) + 1 } } :
          LCDState).g_PixelPos
        = (y + 1) * 60 := by
      simp only [LCDPlotOffset, hm, h0]
    rw [LCDUpdate_of_lt dt _ _ (by rw [hoff]; omega), hoff, hm]
  · intro ks s s' hl hstep hpen
    have hcell := LCDUpdate_plotted_cell dt ks s s' hl hstep
    rcases hpen with hp | hp
    · rw [hp] at hcell
      simp only [h60] at hcell
      exact hcell
    · rw [hp] at hcell
      simp only [h0] at hcell
      exact hcell

/-- C15 at a concrete input: row 20 of the dark panel, a sixtieth of a second. -/
theorem C15_right_edge_wraps_witness :
    GetLCDOffset 60 ((20 : Nat) : Int) = GetLCDOffset 0 (((20 : Nat) : Int) + 1) ∧
    GetLCDOffset 60 ((20 : Nat) : Int) = (20 + 1) * SCREEN_WIDTH ∧
    (20 + 1) * SCREEN_WIDTH < g_LCDPanelSize :=
  ⟨(C15_right_edge_wraps 20 (by decide) (1 / 60) (List.replicate g_LCDPanelSize 0)
      (List.length_replicate _ _)).1,
   (C15_right_edge_wraps 20 (by decide) (1 / 60) (List.replicate g_LCDPanelSize 0)
      (List.length_replicate _ _)).2.1,
   (C15_right_edge_wraps 20 (by decide) (1 / 60) (List.replicate g_LCDPanelSize 0)
      (List.length_replicate _ _)).2.2.1⟩

end LCDGame
